import Mathlib

/-!
# A verification development for `sh.c`

Shallow embedding of the shell's line parser (`parse`), command dispatcher and
launcher (`execute`), reaper (`reap`) and one iteration of the read-eval loop
of `main`, followed by theorems about them.

Conventions of the embedding

* A C string is a `List Char` (the bytes before the terminating NUL).
* `tokens[k]`, `argv[k]`, `*input_path` and `*output_path` are pointers into
  the line buffer.  A pointer to the start of the `k`-th token is represented
  by the number `k`; the text it points to is read from the token array
  after the in-place edits `parse` makes to the buffer.
* System calls are answered by an environment record (`Sys`); every call the
  shell makes is appended to a trace (`Shell.calls`), every line it prints is
  appended to `Shell.out`.
* An `int` is a 32-bit two's complement integer: the result of `job_count++`
  and the value `atoi` returns go through `to_int`, which keeps the low 32
  bits.  Process ids and return values of system calls are integers given by
  the environment.
-/

namespace Sh

/-- A C string: the bytes before the terminating NUL. -/
abbrev Str := List Char

/-! ## `parse` (sh.c, lines 54-190) -/

/-- Membership in `whtspc[6] = " \t"`, the delimiter set handed to `strtok`. -/
def whtspc (c : Char) : Bool := c == ' ' || c == '\t'

/-- One `strtok` call on the part of the buffer not yet consumed: `none` when
only delimiters are left, otherwise the token (leading delimiters skipped, up
to the next delimiter) and the text after the delimiter that was overwritten
by NUL. -/
def strtok (s : Str) : Option (Str × Str) :=
  match s.dropWhile whtspc with
  | [] => none
  | c :: r =>
    some (c :: r.takeWhile (fun x => !whtspc x),
          (r.dropWhile (fun x => !whtspc x)).drop 1)

/-- The loop of lines 73-77, `while ((token = strtok(...)) != NULL)`, run for at
most `fuel` iterations. -/
def get_tokens : Nat → Str → List Str
  | 0, _ => []
  | fuel + 1, s =>
    match strtok s with
    | none => []
    | some (token, rest) => token :: get_tokens fuel rest

/-- The token array `parse` builds from a buffer, lines 72-77: every `strtok`
call that returns a token consumes at least one byte, so as many iterations
as the buffer has bytes exhaust it (`get_tokens_fuel`). -/
def tokens_of (s : Str) : List Str := get_tokens s.length s

/-- `strstr(hay, needle) != NULL`. -/
def strstr (hay needle : Str) : Bool :=
  hay.tails.any (fun t => needle.isPrefixOf t)

/-- The effect of `if ((ptr = strchr(s, '\n')) != NULL) *ptr = '\0';` on the
string `s`. -/
def trim_newline (s : Str) : Str := s.takeWhile (fun c => c != '\n')

/-- The local variables and out-parameters that the loop of lines 89-159
updates. -/
structure Scan where
  in_flag : Nat
  out_flag : Nat
  skip : Nat
  /-- Content of `argv[0 .. argv_index)`, as pointers to tokens. -/
  argv : List Nat
  input_path : Option Nat
  output_path : Option Nat
  output_type : Int
deriving DecidableEq, Repr

/-- The loop of lines 89-159 from index `j` on, over the tokens `tokens[j..]`,
with `i` the number of tokens.  The first component is the message printed
when the loop left through one of its `return 1`. -/
def scan (i : Nat) : Nat → List Str → Scan → Option String × Scan
  | _, [], st => (none, st)
  | j, token :: rest, st =>
    if strstr token ['<'] then
      if j = i - 1 then
        (some "ERROR - no redirect file specified.\n", st)
      else if st.in_flag = 0 then
        if st.skip = 1 then
          (some "ERROR - Two consecutive redirect symbols.\n", st)
        else
          scan i (j + 1) rest
            { st with input_path := some (j + 1), in_flag := 1, skip := 1 }
      else
        (some "syntax error: multiple input files\n", st)
    else if strstr token ['>', '>'] || strstr token ['>'] then
      if j = i - 1 then
        (some "ERROR - no redirect file specified.\n", st)
      else if st.out_flag = 0 then
        if st.skip = 1 then
          (some "ERROR - Two consecutive redirect symbols.\n", st)
        else
          scan i (j + 1) rest
            { st with
              output_path := some (j + 1)
              output_type := if strstr token ['>', '>'] then 1 else 0
              out_flag := 1
              skip := 1 }
      else
        (some "syntax error: multiple output files\n", st)
    else if st.skip ≠ 1 && token ≠ ['\n'] then
      scan i (j + 1) rest { st with argv := st.argv ++ [j] }
    else
      scan i (j + 1) rest { st with skip := 0 }

/-- In-place edit of the `k`-th token. -/
def edit (f : Str → Str) (k : Nat) (tokens : List Str) : List Str :=
  tokens.set k (f (tokens.getD k []))

/-- What `parse` leaves behind: its return value, the token strings as they
stand in the buffer on return, `argv[0 .. argv_index)`, the out-parameters
(`none`: not written, still the caller's NULL) and the messages printed. -/
structure Parsed where
  ret : Int
  tokens : List Str
  argv : List Nat
  input_path : Option Nat
  output_path : Option Nat
  output_type : Int
  err : List String
deriving DecidableEq, Repr

/-- The function `parse` of sh.c.  `output_type` is the value `*output_type`
holds on entry (`main` never resets it); `*input_path` and `*output_path` are
NULL on entry (`main`, lines 570-571). -/
def parse (buffer : Str) (output_type : Int) : Parsed :=
  let tokens := tokens_of buffer
  let i := tokens.length
  let st0 : Scan :=
    { in_flag := 0, out_flag := 0, skip := 0, argv := [],
      input_path := none, output_path := none, output_type := output_type }
  if i = 0 then
    { ret := 1, tokens := tokens, argv := [], input_path := none,
      output_path := none, output_type := output_type, err := [] }
  else
    match scan i 0 tokens st0 with
    | (some msg, st) =>
      { ret := 1, tokens := tokens, argv := st.argv, input_path := st.input_path,
        output_path := st.output_path, output_type := st.output_type, err := [msg] }
    | (none, st) =>
      if tokens.getD 0 [] = ['\n'] then
        { ret := 1, tokens := tokens, argv := st.argv, input_path := st.input_path,
          output_path := st.output_path, output_type := st.output_type, err := [] }
      else if st.argv = [] then
        { ret := 1, tokens := tokens, argv := st.argv, input_path := st.input_path,
          output_path := st.output_path, output_type := st.output_type,
          err := ["ERROR - No command.\n"] }
      else
        let tokens1 := edit trim_newline (i - 1) tokens
        let tokens2 := edit trim_newline (st.argv.getLastD 0) tokens1
        { ret := 0, tokens := tokens2, argv := st.argv, input_path := st.input_path,
          output_path := st.output_path, output_type := st.output_type, err := [] }

/-- The string a token pointer points to when `parse` has returned. -/
def Parsed.str (p : Parsed) (k : Nat) : Str := p.tokens.getD k []

/-- The NULL-terminated argument vector as strings. -/
def Parsed.args (p : Parsed) : List Str := p.argv.map p.str

/-- The input redirection path, `none` for NULL. -/
def Parsed.input (p : Parsed) : Option Str := p.input_path.map p.str

/-- The output redirection path, `none` for NULL. -/
def Parsed.output (p : Parsed) : Option Str := p.output_path.map p.str

/-! ## Processes, jobs and the job table -/

/-- What `waitpid` stores in `status`; the `WIF...` tests tell the four kinds
apart and are mutually exclusive. -/
inductive Status where
  | exited (code : Nat)
  | signaled (sig : Nat)
  | stopped (sig : Nat)
  | continued
deriving DecidableEq, Repr

/-- The tests and accessors of <sys/wait.h> on a status. -/
def WIFEXITED : Status → Bool
  | .exited _ => true
  | _ => false

def WIFSIGNALED : Status → Bool
  | .signaled _ => true
  | _ => false

def WIFSTOPPED : Status → Bool
  | .stopped _ => true
  | _ => false

def WIFCONTINUED : Status → Bool
  | .continued => true
  | _ => false

def WEXITSTATUS : Status → Nat
  | .exited c => c
  | _ => 0

def WTERMSIG : Status → Nat
  | .signaled n => n
  | _ => 0

def WSTOPSIG : Status → Nat
  | .stopped n => n
  | _ => 0

/-- Modelled from the spec: `process_state_t` of jobs.h, which is not among the
sources; a stored job is Running or Stopped. -/
inductive process_state_t where
  | RUNNING
  | STOPPED
deriving DecidableEq, Repr

export process_state_t (RUNNING STOPPED)

/-- Modelled from the spec: a job record of jobs.h (job id, process id, state,
command name). -/
structure Job where
  jid : Int
  pid : Int
  state : process_state_t
  command : Str
deriving DecidableEq, Repr

/-- Modelled from the spec: the job table of jobs.h, a collection of jobs. -/
abbrev job_list_t := List Job

/-- Modelled from the spec: `add_job` of jobs.h, insert(id, pid, state, name)
with result success or failure.  Whether the insertion succeeds is up to the
table (`ok`); a failed insertion returns -1 and stores nothing. -/
def add_job (ok : Bool) (l : job_list_t) (jid pid : Int) (state : process_state_t)
    (command : Str) : Int × job_list_t :=
  if ok then (0, l ++ [{ jid := jid, pid := pid, state := state, command := command }])
  else (-1, l)

/-- Modelled from the spec: `remove_job_jid` of jobs.h, remove_by_id(id). -/
def remove_job_jid (l : job_list_t) (jid : Int) : job_list_t :=
  l.filter (fun j => j.jid ≠ jid)

/-- Modelled from the spec: `update_job_jid` of jobs.h,
update_state_by_id(id, state). -/
def update_job_jid (l : job_list_t) (jid : Int) (state : process_state_t) : job_list_t :=
  l.map (fun j => if j.jid = jid then { j with state := state } else j)

/-- Modelled from the spec: `get_job_pid` of jobs.h, pid_of(id), with -1 for
not found. -/
def get_job_pid (l : job_list_t) (jid : Int) : Int :=
  match l.find? (fun j => j.jid = jid) with
  | some j => j.pid
  | none => -1

/-- Modelled from the spec: `get_job_jid` of jobs.h, id_of(pid), with -1 for not
found. -/
def get_job_jid (l : job_list_t) (pid : Int) : Int :=
  match l.find? (fun j => j.pid = pid) with
  | some j => j.jid
  | none => -1

/-! ## The shell process -/

/-- Calls the shell makes to the operating system and to the job table, in the
order it makes them. -/
inductive Call where
  | chdir (path : Str)
  | link (target name : Str)
  | unlink (path : Str)
  | open_probe (path : Str)
  | fork
  | setpgid
  | tcsetpgrp (pgrp : Int)
  | kill_cont (pgrp : Int)
  | waitpid (pid : Int)
  | open_in (path : Str)
  | open_out (path : Str) (append : Bool)
  | execv (path : Str) (argv : List Str)
  | add_job (jid pid : Int) (state : process_state_t) (command : Str) (ret : Int)
  | remove_job_jid (jid : Int)
  | update_job_jid (jid : Int) (state : process_state_t)
  | cleanup_job_list
deriving DecidableEq, Repr

/-- Everything the shell prints. -/
inductive Line where
  /-- Text written by `print_stderr`. -/
  | stderr (s : String)
  /-- Call of `perror` with this prefix. -/
  | perror (s : String)
  /-- Line `[%d] (%ld)`. -/
  | launched (jid pid : Int)
  /-- Line `[%d] (%d) terminated by signal %d`. -/
  | signaled (jid pid : Int) (sig : Nat)
  /-- Line `[%d] (%d) suspended by signal %d`. -/
  | suspended (jid pid : Int) (sig : Nat)
  /-- Line `[%d] (%d) terminated with exit status %d`. -/
  | exited (jid pid : Int) (code : Nat)
  /-- Line `[%d] (%d) resumed`. -/
  | resumed (jid pid : Int)
  /-- Output of `jobs(job_list)`. -/
  | jobs (table : job_list_t)
deriving DecidableEq, Repr

/-- How the process stopped running the shell's code. -/
inductive Halt where
  | exit (code : Nat)
  | exec (path : Str) (argv : List Str)
deriving DecidableEq, Repr

/-- State of the shell process: the globals `job_list` and `job_count`, the
local `out_redir_type` of `main`, the process group of the process, the
foreground process group of the terminal, and the record of what it printed
and called. -/
structure Shell where
  job_list : job_list_t
  job_count : Int
  out_redir_type : Int
  pgrp : Int
  tty : Int
  out : List Line
  calls : List Call
  halted : Option Halt
deriving DecidableEq, Repr

/-- The shell when `main` enters its loop: empty job table, `job_count = 1`,
`out_redir_type = 0`, the shell's process group owning the terminal. -/
def Shell.init (pgrp : Int) : Shell :=
  { job_list := [], job_count := 1, out_redir_type := 0, pgrp := pgrp, tty := pgrp,
    out := [], calls := [], halted := none }

/-- The shell after printing a line. -/
def Shell.print (s : Shell) (l : Line) : Shell := { s with out := s.out ++ [l] }

/-- The shell after making a call. -/
def Shell.call (s : Shell) (c : Call) : Shell := { s with calls := s.calls ++ [c] }

/-- Call of `print_stderr` (its write is taken to succeed). -/
def print_stderr (msg : String) (s : Shell) : Shell := s.print (.stderr msg)

/-- Call of `tcsetpgrp(STDIN_FILENO, pgrp)` returning `ret`: on success the
terminal's foreground process group becomes `pgrp`. -/
def tcsetpgrp (ret : Int) (pgrp : Int) (s : Shell) : Shell :=
  let s := s.call (.tcsetpgrp pgrp)
  if ret < 0 then s else { s with tty := pgrp }

/-- Call of `add_job` on the global table; the first component is its return
value. -/
def Shell.add_job (s : Shell) (ok : Bool) (jid pid : Int) (state : process_state_t)
    (command : Str) : Int × Shell :=
  let r := Sh.add_job ok s.job_list jid pid state command
  (r.1, { s with job_list := r.2,
                 calls := s.calls ++ [.add_job jid pid state command r.1] })

/-- Call of `remove_job_jid` on the global table. -/
def Shell.remove_job_jid (s : Shell) (jid : Int) : Shell :=
  { s with job_list := Sh.remove_job_jid s.job_list jid,
           calls := s.calls ++ [.remove_job_jid jid] }

/-- Call of `update_job_jid` on the global table. -/
def Shell.update_job_jid (s : Shell) (jid : Int) (state : process_state_t) : Shell :=
  { s with job_list := Sh.update_job_jid s.job_list jid state,
           calls := s.calls ++ [.update_job_jid jid state] }

/-- Answers of the environment to the calls one `execute` makes. -/
structure Sys where
  chdir : Int
  link : Int
  unlink : Int
  /-- Result of `open(path, O_RDONLY)`, line 367. -/
  open_probe : Int
  fork : Int
  /-- In the parent of a foreground launch: the child has made itself the
  terminal's foreground process group (lines 388-401) by the time the
  parent's `waitpid` returns. -/
  child_owns_tty : Bool
  /-- In the child: its process id, `setpgid`, `tcsetpgrp`, the two
  redirection `open`s and `execv`. -/
  getpid : Int
  setpgid : Int
  tcsetpgrp_child : Int
  open_in : Int
  open_out : Int
  execv : Int
  /-- Result of `tcsetpgrp(STDIN_FILENO, job_pid)` in `fg`, line 287. -/
  tcsetpgrp_job : Int
  kill : Int
  waitpid : Int
  status : Status
  /-- Whether `add_job` succeeds. -/
  add_job : Bool
  /-- Result of `tcsetpgrp(STDIN_FILENO, getpgrp())`, lines 325 and 473. -/
  tcsetpgrp_shell : Int
deriving DecidableEq, Repr

/-- C library `isspace`. -/
def isspace (c : Char) : Bool :=
  c == ' ' || c == '\t' || c == '\n' || c == '\x0b' || c == '\x0c' || c == '\r'

/-- Value of the leading run of decimal digits, continuing from `acc`. -/
def atoi_digits : Nat → Str → Nat
  | acc, [] => acc
  | acc, c :: cs => if c.isDigit then atoi_digits (10 * acc + (c.toNat - 48)) cs else acc

/-- The number a decimal string denotes: white space, an optional sign, then
the leading run of digits. -/
def decimal_value (s : Str) : Int :=
  match s.dropWhile isspace with
  | '-' :: r => - (atoi_digits 0 r : Int)
  | '+' :: r => (atoi_digits 0 r : Int)
  | r => (atoi_digits 0 r : Int)

/-- The value an `int` holds for the integer `x`: its low 32 bits, read in two's
complement (`x` itself when `x` is in the range of `int`). -/
def to_int (x : Int) : Int := (x + 2147483648) % 4294967296 - 2147483648

/-- The value `strtol` returns for the integer `x`: `x` itself when it is in the
range of a 64-bit `long`, else `LONG_MIN` or `LONG_MAX`. -/
def to_long_sat (x : Int) : Int :=
  max (-9223372036854775808) (min x 9223372036854775807)

/-- C library `atoi`, computed as `(int) strtol(s, NULL, 10)`: the number the
string denotes when it is in the range of `int`; beyond it, `strtol` saturates
at the range of `long` and the conversion to `int` keeps the low 32 bits. -/
def atoi (s : Str) : Int := to_int (to_long_sat (decimal_value s))

/-- The text after the last '/', what `argv[0]` points to after lines 221-224
(the whole string when it has no '/'). -/
def trim_path (s : Str) : Str := (s.reverse.takeWhile (fun c => c != '/')).reverse

/-! ## `execute` (sh.c, lines 203-478) -/

/-- The child's side of `execute`, lines 386-438: the branch taken when `fork`
returned 0.  `argv` is the vector with `argv[0]` already trimmed.  The child
either replaces its image (`execv`) or returns from `execute`; signal
dispositions are not part of the state. -/
def execute_child (e : Sys) (path : Str) (argv : List Str) (is_bg : Bool)
    (input_redir_name output_redir_name : Option Str) (output_redir_type : Int)
    (s : Shell) : Shell :=
  let s := s.call .setpgid
  if e.setpgid < 0 then s.print (.perror "ERROR - Error setting pgid")
  else
    let s := { s with pgrp := e.getpid }
    let argv := if is_bg then argv.dropLast else argv
    let s := if is_bg then s else tcsetpgrp e.tcsetpgrp_child s.pgrp s
    if !is_bg && e.tcsetpgrp_child < 0 then s.print (.perror "ERROR - Error setting group ID")
    else
      let s :=
        match input_redir_name with
        | some f => s.call (.open_in f)
        | none => s
      if input_redir_name.isSome && e.open_in < 0 then
        s.print (.perror "ERROR - Error opening file for reading")
      else
        let s :=
          match output_redir_name with
          | some f => s.call (.open_out f (output_redir_type != 0))
          | none => s
        if output_redir_name.isSome && e.open_out < 0 then
          s.print (.perror "ERROR - Error opening file for writing")
        else
          let s := s.call (.execv path argv)
          if e.execv < 0 then s.print (.perror "ERROR - Error executing file")
          else { s with halted := some (.exec path argv) }

/-- The three tests of the status that `fg` waited for, lines 305-322. -/
def fg_status (job_id pid : Int) (status : Status) (s : Shell) : Shell :=
  let s :=
    if WIFSIGNALED status then
      (s.print (.signaled job_id pid (WTERMSIG status))).remove_job_jid job_id
    else s
  let s :=
    if WIFSTOPPED status then
      (s.print (.suspended job_id pid (WSTOPSIG status))).update_job_jid job_id STOPPED
    else s
  if WIFEXITED status then s.remove_job_jid job_id else s

/-- The transfer of the terminal back to the shell, lines 324-327 and 472-475:
`tcsetpgrp(STDIN_FILENO, getpgrp())`, with `perror` when it fails. -/
def reclaim_terminal (e : Sys) (s : Shell) : Shell :=
  let s := tcsetpgrp e.tcsetpgrp_shell s.pgrp s
  if e.tcsetpgrp_shell < 0 then s.print (.perror "ERROR - Error setting group ID") else s

/-- The `fg` builtin, lines 266-330.  `job_id_raw` is the copy of `argv[1]` made
at lines 271-272, taken to hold the same text. -/
def execute_fg (e : Sys) (argv : List Str) (s : Shell) : Shell :=
  match argv.get? 1 with
  | none => print_stderr "fg: syntax error\n" s
  | some job_id_raw =>
    if job_id_raw.head? ≠ some '%' then print_stderr "fg: syntax error\n" s
    else
      let job_id := atoi (job_id_raw.drop 1)
      let job_pid := get_job_pid s.job_list job_id
      if job_pid < 0 then print_stderr "ERROR - job not found\n" s
      else
        let s := tcsetpgrp e.tcsetpgrp_job job_pid s
        if e.tcsetpgrp_job < 0 then print_stderr "ERROR - error transferring control\n" s
        else
          let s := s.call (.kill_cont job_pid)
          if e.kill < 0 then print_stderr "ERROR - error sending signal\n" s
          else
            let s := s.update_job_jid job_id RUNNING
            let s := s.call (.waitpid job_pid)
            let pid := e.waitpid
            if pid < 0 then s.print (.perror "waitpid")
            else reclaim_terminal e (fg_status job_id pid e.status s)

/-- The `bg` builtin, lines 332-358, with `job_id_raw` as in `fg`. -/
def execute_bg (e : Sys) (argv : List Str) (s : Shell) : Shell :=
  match argv.get? 1 with
  | none => print_stderr "bg: syntax error\n" s
  | some job_id_raw =>
    if job_id_raw.head? ≠ some '%' then print_stderr "bg: syntax error\n" s
    else
      let job_id := atoi (job_id_raw.drop 1)
      let job_pid := get_job_pid s.job_list job_id
      if job_pid < 0 then print_stderr "ERROR - job not found\n" s
      else
        let s := s.call (.kill_cont job_pid)
        if e.kill < 0 then print_stderr "ERROR - error sending signal\n" s
        else s.update_job_jid job_id RUNNING

/-- What the parent sees of the child's lines 388-401 in a foreground launch:
by the time `waitpid` returns, the child may have made its own process group
the foreground group of the terminal. -/
def child_takes_terminal (e : Sys) (child_pid : Int) (s : Shell) : Shell :=
  if 0 < child_pid && e.child_owns_tty then { s with tty := child_pid } else s

/-- The parent's side of a background launch, lines 441-447. -/
def launch_background (e : Sys) (path : Str) (child_pid : Int) (s : Shell) : Shell :=
  let (r, s1) := s.add_job e.add_job s.job_count child_pid RUNNING path
  if r < 0 then print_stderr "ERROR - Error adding job.\n" s1
  else
    let s1 := s1.print (.launched s1.job_count child_pid)
    { s1 with job_count := to_int (s1.job_count + 1) }

/-- The parent's side of a foreground launch, lines 449-476. -/
def launch_foreground (e : Sys) (path : Str) (child_pid : Int) (s : Shell) : Shell :=
  let s := s.call (.waitpid child_pid)
  let pid := e.waitpid
  if pid < 0 then s.print (.perror "waitpid")
  else
    let status := e.status
    let s :=
      if WIFSIGNALED status then s.print (.signaled s.job_count pid (WTERMSIG status))
      else s
    if WIFSTOPPED status then
      let s := s.print (.suspended s.job_count pid (WSTOPSIG status))
      let (r, s1) := s.add_job e.add_job s.job_count pid STOPPED path
      if r < 0 then print_stderr "ERROR - Error adding job.\n" s1
      else reclaim_terminal e { s1 with job_count := to_int (s1.job_count + 1) }
    else reclaim_terminal e s

/-- Launch of an external program, lines 365-477. -/
def execute_launch (e : Sys) (path : Str) (argv : List Str)
    (input_redir_name output_redir_name : Option Str) (output_redir_type : Int)
    (s : Shell) : Shell :=
  let s := s.call (.open_probe path)
  if e.open_probe < 0 then s.print (.perror "ERROR - Error opening file")
  else
    let is_bg : Bool := argv.getLast? = some ['&']
    let child_pid := e.fork
    let s := s.call .fork
    if child_pid = 0 then
      execute_child e path argv is_bg input_redir_name output_redir_name output_redir_type s
    else if is_bg then launch_background e path child_pid s
    else launch_foreground e path child_pid (child_takes_terminal e child_pid s)

/-- The function `execute` of sh.c, called with a vector whose `argv[0]` is not
NULL. -/
def execute (e : Sys) (argv : List Str) (input_redir_name output_redir_name : Option Str)
    (output_redir_type : Int) (s : Shell) : Shell :=
  let path := argv.headD []
  let argv := trim_path path :: argv.tail
  if path = ['c', 'd'] then
    match argv.get? 1 with
    | none => print_stderr "cd: syntax error\n" s
    | some dir =>
      let s := s.call (.chdir dir)
      if e.chdir < 0 then s.print (.perror "ERROR - Error opening directory") else s
  else if path = ['l', 'n'] then
    match argv.get? 1, argv.get? 2 with
    | some target, some name =>
      let s := s.call (.link target name)
      if e.link < 0 then s.print (.perror "ERROR - Error linking file") else s
    | _, _ => print_stderr "ln: syntax error\n" s
  else if path = ['r', 'm'] then
    match argv.get? 1 with
    | none => print_stderr "rm: syntax error\n" s
    | some file =>
      let s := s.call (.unlink file)
      if e.unlink < 0 then s.print (.perror "ERROR - Error unlinking file") else s
  else if path = ['e', 'x', 'i', 't'] then
    { s.call .cleanup_job_list with halted := some (.exit 0) }
  else if path = ['f', 'g'] then execute_fg e argv s
  else if path = ['b', 'g'] then execute_bg e argv s
  else if path = ['j', 'o', 'b', 's'] then s.print (.jobs s.job_list)
  else execute_launch e path argv input_redir_name output_redir_name output_redir_type s

/-! ## `reap` (sh.c, lines 480-525) -/

/-- The body of the loop of `reap`, lines 493-522, for one result `pid > 0` of
`waitpid` with its `status`. -/
def reap_body (pid : Int) (status : Status) (s : Shell) : Shell :=
  let jid := get_job_jid s.job_list pid
  let s := if jid < 0 then print_stderr "ERROR - job not found.\n" s else s
  let s :=
    if WIFEXITED status then
      (s.print (.exited jid pid (WEXITSTATUS status))).remove_job_jid jid
    else s
  let s :=
    if WIFSIGNALED status then
      (s.print (.signaled jid pid (WTERMSIG status))).remove_job_jid jid
    else s
  let s :=
    if WIFSTOPPED status then
      (s.print (.suspended jid pid (WSTOPSIG status))).update_job_jid jid STOPPED
    else s
  if WIFCONTINUED status then
    (s.print (.resumed jid pid)).update_job_jid jid RUNNING
  else s

/-- The function `reap`.  The list holds the successive results of
`waitpid(-1, &status, WNOHANG | WUNTRACED | WCONTINUED)`; past its end the call
returns 0 (nothing pending). -/
def reap : List (Int × Status) → Shell → Shell
  | [], s => s.call (.waitpid (-1))
  | (pid, status) :: more, s =>
    let s := s.call (.waitpid (-1))
    if 0 < pid then
      if pid = -1 then s.print (.perror "waitpid")
      else reap more (reap_body pid status s)
    else s

/-! ## One iteration of the loop of `main` (sh.c, lines 559-611) -/

/-- The result of `read(STDIN_FILENO, buffer, SIZE)`. -/
inductive ReadResult where
  | eof
  | error
  | data (bytes : List Char)
deriving DecidableEq, Repr

/-- The C string in a zero-filled buffer that holds `bytes`. -/
def cstr (bytes : List Char) : Str := bytes.takeWhile (fun c => c != '\x00')

/-- What one iteration of the loop consumes: the status changes pending for
the reaper, the result of `read`, and the answers to the system calls of
`execute`. -/
structure Cycle where
  pending : List (Int × Status)
  input : ReadResult
  sys : Sys
deriving DecidableEq, Repr

/-- The body of `while (1)` in `main`: reap, read, parse and, when `parse`
returned 0, execute (the prompt of the PROMPT build is left out).  A process
that has exited or has replaced its image runs no further iteration. -/
def repl_step (s : Shell) (c : Cycle) : Shell :=
  if s.halted.isSome then s
  else
    let s := reap c.pending s
    match c.input with
    | .eof => { s.call .cleanup_job_list with halted := some (.exit 0) }
    | .error =>
      { (print_stderr "ERROR - read error.\n" s).call .cleanup_job_list with
        halted := some (.exit 1) }
    | .data bytes =>
      let p := parse (cstr bytes) s.out_redir_type
      let s := { s with out_redir_type := p.output_type,
                        out := s.out ++ p.err.map Line.stderr }
      if p.ret = 0 then execute c.sys p.args p.input p.output p.output_type s
      else s

/-- The shell after the given iterations. -/
def run (s : Shell) (cs : List Cycle) : Shell := cs.foldl repl_step s

/-! ## Specification-side definitions for the parser -/

/-- Following the spec's words: the space/tab-delimited tokens of a line, the
maximal runs of characters other than space and tab. -/
def spec_tokens (line : Str) : List Str :=
  (line.splitOnP whtspc).filter (fun t => t ≠ [])

/-- Following the spec's words: a redirection-operator token is a token
containing '<' or '>'. -/
def is_redir (t : Str) : Prop := '<' ∈ t ∨ '>' ∈ t

instance (t : Str) : Decidable (is_redir t) := by unfold is_redir; infer_instance

/-- Following the spec's words: an output-operator token contains '>' and
no '<'. -/
def is_out (t : Str) : Prop := '>' ∈ t ∧ '<' ∉ t

instance (t : Str) : Decidable (is_out t) := by unfold is_out; infer_instance

/-- Following the claim's words: a token sequence with a malformed redirection. -/
def malformed (T : List Str) : Prop :=
  2 ≤ T.countP (fun t => decide ('<' ∈ t)) ∨
  2 ≤ T.countP (fun t => decide (is_out t)) ∨
  (∃ a t u c, T = a ++ t :: u :: c ∧ is_redir t ∧ is_redir u) ∨
  (∃ t ∈ T.getLast?, is_redir t)

/-- Following the claim's words: the `j`-th token goes to `argv` when it is
not a redirection operator, does not come right after one, and is not a bare
line terminator. -/
def kept (T : List Str) (j : Nat) : Prop :=
  ¬ is_redir (T.getD j []) ∧ ¬ (0 < j ∧ is_redir (T.getD (j - 1) [])) ∧ T.getD j [] ≠ ['\n']

instance (T : List Str) (j : Nat) : Decidable (kept T j) := by unfold kept; infer_instance

/-- Following the claim's words: a string with its line terminator stripped. -/
def strip_nl (t : Str) : Str := if t.getLast? = some '\n' then t.dropLast else t

/-- Following the claim's words: a list of strings with the line terminator
stripped from the last entry. -/
def strip_last (l : List Str) : List Str :=
  match l.getLast? with
  | none => l
  | some x => l.dropLast ++ [strip_nl x]

/-- Following the claim's words: the tokens that are not a redirection
operator, do not follow one and are not a bare line terminator, in their
original order, with the line terminator stripped from the last entry. -/
def spec_argv (T : List Str) : List Str :=
  strip_last
    (((List.range T.length).filter (fun j => decide (kept T j))).map (fun j => T.getD j []))

/-- An environment in which every call succeeds: `fork` returns child 600, the
child takes the terminal for a foreground launch, and `waitpid` reports that
process 600 exited with status 0. -/
def sys_ok : Sys :=
  { chdir := 0, link := 0, unlink := 0, open_probe := 3, fork := 600, child_owns_tty := true,
    getpid := 600, setpgid := 0, tcsetpgrp_child := 0, open_in := 0, open_out := 1, execv := 0,
    tcsetpgrp_job := 0, kill := 0, waitpid := 600, status := .exited 0, add_job := true,
    tcsetpgrp_shell := 0 }

/-- A shell with process group 100 that owns the terminal and has one stopped
job, job 1 with process id 500. -/
def shell_one_job : Shell :=
  { Shell.init 100 with
    job_list := [{ jid := 1, pid := 500, state := STOPPED, command := "/bin/cat".toList }]
    job_count := 2 }

/-- The environment `sys_ok`, with `waitpid` reporting on process 500, the
process of job 1 in `shell_one_job`. -/
def sys_fg : Sys := { sys_ok with waitpid := 500 }

/-- Following the claim's words: a known job, one whose id is in the table (its
process id, as every process id, not negative). -/
def known (l : job_list_t) (id : Int) : Prop :=
  ∃ j, l.find? (fun j => j.jid = id) = some j ∧ 0 ≤ j.pid

/-- Following the claim's words: the jobs other than the addressed one. -/
def others (l : job_list_t) (id : Int) : job_list_t := l.filter (fun j => j.jid ≠ id)

/-- Following the claim's words: what one pending status change does to the job
table.  A change whose pid has no job leaves the table as it is; otherwise an
exit or a termination by signal removes that job, a stop marks it STOPPED and a
continuation marks it RUNNING. -/
def reap_change (l : job_list_t) (c : Int × Status) : job_list_t :=
  match l.find? (fun j => j.pid = c.1) with
  | none => l
  | some j =>
    match c.2 with
    | .exited _ => l.filter (fun x => x ≠ j)
    | .signaled _ => l.filter (fun x => x ≠ j)
    | .stopped _ => l.map (fun x => if x = j then { x with state := STOPPED } else x)
    | .continued => l.map (fun x => if x = j then { x with state := RUNNING } else x)

/-- Following the claim's words: the number of pending changes whose pid has
no job when their turn comes. -/
def lookup_errors : job_list_t → List (Int × Status) → Nat
  | _, [] => 0
  | l, c :: cs =>
    (if (l.find? (fun j => j.pid = c.1)).isNone then 1 else 0) +
      lookup_errors (reap_change l c) cs

/-- The line `reap` prints for a pid without a job. -/
def lookup_error : Line := .stderr "ERROR - job not found.\n"

/-- Job ids in the table are positive and pairwise distinct. -/
def table_ok (l : job_list_t) : Prop := (∀ j ∈ l, 0 < j.jid) ∧ (l.map Job.jid).Nodup

/-- The job id a call inserts into the job table: that of an `add_job` that did
not fail. -/
def issued_by : Call → Option Int
  | .add_job jid _ _ _ ret => if ret < 0 then none else some jid
  | _ => none

/-- The job ids inserted into the job table, in the order of insertion. -/
def issued (calls : List Call) : List Int := calls.filterMap issued_by

/-- The job ids in the table, in table order. -/
def jids (s : Shell) : List Int := s.job_list.map Job.jid

/-- A transition that inserts no job: the counter and the issued ids stay, the
ids in the table can only have dropped out. -/
def Quiet (s s' : Shell) : Prop :=
  s'.job_count = s.job_count ∧ issued s'.calls = issued s.calls ∧ (jids s').Sublist (jids s)

/-- A transition that inserts one job: its id is the counter, which then
advances by one (as an `int`). -/
def Grow (s s' : Shell) : Prop :=
  s'.job_count = to_int (s.job_count + 1) ∧
    issued s'.calls = issued s.calls ++ [s.job_count] ∧
    (jids s').Sublist (jids s ++ [s.job_count])

/-- The invariant of a session: the ids inserted so far are 1, 2, ..., n, the
counter is n + 1, and the ids in the table are positive, below the counter and
strictly increasing in table order. -/
def SessionInv (s : Shell) : Prop :=
  ∃ n : Nat, issued s.calls = (List.range' 1 n).map Int.ofNat ∧ s.job_count = n + 1 ∧
    (∀ x ∈ jids s, 0 < x ∧ x < s.job_count) ∧ (jids s).Pairwise (· < ·)

/-- The index at which line 80 writes the NULL that ends `tokens`. -/
def tokens_sentinel (buffer : Str) : Nat := (tokens_of buffer).length

/-- The index at which line 164 writes the NULL that ends `argv`. -/
def argv_sentinel (buffer : Str) : Nat := (parse buffer 0).argv.length

/-- A line of 1023 bytes: 511 times "a ", then the line terminator. -/
def long_line : Str := (List.replicate 511 ['a', ' ']).flatten ++ ['\n']

/-- A line of 1023 bytes without terminator: 511 times "a ", then "a". -/
def long_args : Str := (List.replicate 511 ['a', ' ']).flatten ++ ['a']



/-- An iteration that reads `/bin/sleep 5 &` with nothing to reap and every
call succeeding. -/
def cycle_bg : Cycle :=
  { pending := [], input := .data "/bin/sleep 5 &\n".toList, sys := sys_ok }

/-- An iteration that first reaps the exit of process 600 and then reads
`/bin/sleep 5 &`, every call succeeding with `fork` returning 601. -/
def cycle_reap_bg : Cycle :=
  { pending := [(600, .exited 0)], input := .data "/bin/sleep 5 &\n".toList,
    sys := { sys_ok with fork := 601 } }

/-- Two neighbouring tokens are not both redirection operators. -/
def not_both (t u : Str) : Prop := ¬ (is_redir t ∧ is_redir u)

/-- An iteration that reads `/bin/cat < ` followed by the line terminator, with
nothing to reap; `fork` answers 0, so the process is the child. -/
def cycle_cat_child : Cycle :=
  { pending := [], input := .data "/bin/cat < \n".toList, sys := { sys_ok with fork := 0 } }

/-! ## The tokenizer -/

theorem strtok_none {s : Str} (h : strtok s = none) : s.dropWhile whtspc = [] := by
  unfold strtok at h
  split at h
  · assumption
  · simp at h

theorem strtok_length {s token rest : Str} (h : strtok s = some (token, rest)) :
    rest.length < s.length := by
  unfold strtok at h
  split at h
  · simp at h
  · rename_i c r hd
    simp only [Option.some.injEq, Prod.mk.injEq] at h
    have h1 : (s.dropWhile whtspc).length ≤ s.length :=
      (List.dropWhile_sublist whtspc).length_le
    have h2 : (r.dropWhile (fun x => !whtspc x)).length ≤ r.length :=
      (List.dropWhile_sublist _).length_le
    rw [hd] at h1
    rw [← h.2]
    simp only [List.length_drop, List.length_cons] at h1 ⊢
    omega

/-- Any two amounts of fuel that are at least the length of the text give the
same tokens: the loop has ended before the fuel runs out. -/
theorem get_tokens_fuel : ∀ (n m : Nat) (s : Str), s.length ≤ n → s.length ≤ m →
    get_tokens n s = get_tokens m s := by
  intro n
  induction n with
  | zero =>
    intro m s hn _
    have hs : s = [] := List.length_eq_zero.mp (Nat.le_zero.mp hn)
    subst hs
    cases m <;> simp [get_tokens, strtok]
  | succ n ih =>
    intro m s hn hm
    cases m with
    | zero =>
      have hs : s = [] := List.length_eq_zero.mp (Nat.le_zero.mp hm)
      subst hs
      simp [get_tokens, strtok]
    | succ m =>
      simp only [get_tokens]
      cases h : strtok s with
      | none => rfl
      | some tr =>
        obtain ⟨t, r⟩ := tr
        have := strtok_length h
        simp only
        rw [ih m r (by omega) (by omega)]

theorem tokens_of_nil : tokens_of [] = [] := rfl

theorem tokens_of_cons_delim {c : Char} (s : Str) (h : whtspc c = true) :
    tokens_of (c :: s) = tokens_of s := by
  unfold tokens_of
  rw [get_tokens_fuel s.length (s.length + 1) s (le_refl _) (Nat.le_succ _)]
  simp only [List.length_cons, get_tokens, strtok, List.dropWhile_cons_of_pos h]

theorem tokens_of_cons_char {c : Char} (s : Str) (h : whtspc c = false) :
    tokens_of (c :: s) =
      (c :: s.takeWhile (fun x => !whtspc x)) ::
        tokens_of ((s.dropWhile (fun x => !whtspc x)).drop 1) := by
  have hlen : ((s.dropWhile (fun x => !whtspc x)).drop 1).length ≤ s.length := by
    have := (List.dropWhile_sublist (fun x => !whtspc x) (l := s)).length_le
    simp only [List.length_drop]
    omega
  unfold tokens_of
  simp only [List.length_cons, get_tokens, strtok, List.dropWhile_cons, h]
  simp only [Bool.false_eq_true, if_false, List.cons.injEq, true_and]
  exact get_tokens_fuel _ _ _ hlen (le_refl _)

theorem splitOnP_run (p : Char → Bool) (s : Str) :
    s.splitOnP p = s.takeWhile (fun x => !p x) ::
      (match s.dropWhile (fun x => !p x) with
       | [] => []
       | _ :: r => r.splitOnP p) := by
  induction s with
  | nil => simp [List.splitOnP_nil]
  | cons x xs ih =>
    rw [List.splitOnP_cons]
    by_cases hx : p x = true
    · simp [hx]
    · have hx' : p x = false := by simpa using hx
      rw [ih]
      simp [hx', List.modifyHead]

/-- The tokens `parse` extracts are the space/tab-delimited tokens of the
line. -/
theorem tokens_of_eq_spec_tokens (s : Str) : tokens_of s = spec_tokens s := by
  generalize h : s.length = n
  induction n using Nat.strong_induction_on generalizing s with
  | _ n ih =>
    cases s with
    | nil => simp [tokens_of_nil, spec_tokens, List.splitOnP_nil]
    | cons c s =>
      by_cases hc : whtspc c = true
      · rw [tokens_of_cons_delim s hc, ih s.length (by simp [← h]) s rfl]
        simp [spec_tokens, List.splitOnP_cons, hc]
      · have hc' : whtspc c = false := by simpa using hc
        have hlen : ((s.dropWhile (fun x => !whtspc x)).drop 1).length < n := by
          have := (List.dropWhile_sublist (fun x => !whtspc x) (l := s)).length_le
          simp only [List.length_drop, ← h, List.length_cons]
          omega
        rw [tokens_of_cons_char s hc', ih _ hlen _ rfl]
        simp only [spec_tokens, List.splitOnP_cons, hc', Bool.false_eq_true, if_false]
        rw [splitOnP_run whtspc s]
        cases hd : s.dropWhile (fun x => !whtspc x) with
        | nil => simp [List.modifyHead, List.splitOnP_nil]
        | cons d r => simp [List.modifyHead]

/-! ## `strstr` -/

theorem strstr_iff (hay needle : Str) : strstr hay needle = true ↔ needle <:+: hay := by
  unfold strstr
  rw [List.any_eq_true, List.infix_iff_prefix_suffix]
  constructor
  · rintro ⟨t, ht, hp⟩
    exact ⟨t, List.isPrefixOf_iff_prefix.mp hp, (List.mem_tails _ _).mp ht⟩
  · rintro ⟨t, hp, ht⟩
    exact ⟨t, (List.mem_tails _ _).mpr ht, List.isPrefixOf_iff_prefix.mpr hp⟩

theorem strstr_char (hay : Str) (c : Char) : strstr hay [c] = true ↔ c ∈ hay := by
  rw [strstr_iff]
  constructor
  · rintro ⟨a, b, rfl⟩
    simp
  · intro h
    obtain ⟨a, b, rfl⟩ := List.append_of_mem h
    exact ⟨a, b, by simp⟩

theorem strstr_gt_gt {hay : Str} (h : strstr hay ['>', '>'] = true) : '>' ∈ hay := by
  rw [strstr_iff] at h
  obtain ⟨a, b, rfl⟩ := h
  simp

/-- The test of line 119-120 is the test for a '>' in the token. -/
theorem out_test (token : Str) :
    (strstr token ['>', '>'] || strstr token ['>']) = true ↔ '>' ∈ token := by
  rw [Bool.or_eq_true, strstr_char]
  constructor
  · rintro (h | h)
    · exact strstr_gt_gt h
    · exact h
  · exact Or.inr

/-! ## The redirection scan -/

/-- What a scan that runs to the end of the tokens implies about the tokens
it has run over. -/
theorem scan_none (i : Nat) : ∀ (rest : List Str) (j : Nat) (st st' : Scan),
    j + rest.length = i → scan i j rest st = (none, st') →
      rest.countP (fun t => decide ('<' ∈ t)) + (if st.in_flag = 0 then 0 else 1) ≤ 1 ∧
      rest.countP (fun t => decide (is_out t)) + (if st.out_flag = 0 then 0 else 1) ≤ 1 ∧
      List.Chain' not_both rest ∧
      (st.skip = 1 → ∀ t ∈ rest.head?, ¬ is_redir t) ∧
      (∀ t ∈ rest.getLast?, ¬ is_redir t) := by
  intro rest
  induction rest with
  | nil =>
    intro j st st' _ _
    refine ⟨?_, ?_, List.chain'_nil, by simp, by simp⟩
    · simp only [List.countP_nil]; split_ifs <;> omega
    · simp only [List.countP_nil]; split_ifs <;> omega
  | cons token rest ih =>
    intro j st st' hj h
    have hlast : j = i - 1 ↔ rest = [] := by
      simp only [List.length_cons] at hj
      rw [← List.length_eq_zero]; omega
    have hlast' : rest ≠ [] → (token :: rest).getLast? = rest.getLast? := by
      intro hne
      obtain ⟨a, r, rfl⟩ := List.exists_cons_of_ne_nil hne
      simp
    unfold scan at h
    by_cases hlt : '<' ∈ token
    · have c1 : strstr token ['<'] = true := (strstr_char _ _).mpr hlt
      simp only [c1, if_true] at h
      split_ifs at h with h1 h2 h3 <;> try (simp at h)
      have hne : rest ≠ [] := fun e => h1 (hlast.mpr e)
      obtain ⟨ha, hb, hc, hd, he⟩ := ih (j + 1) _ st' (by simp at hj ⊢; omega) h
      have hr : is_redir token := Or.inl hlt
      have ho : ¬ is_out token := fun x => x.2 hlt
      simp only [List.countP_cons, hlt, ho, decide_True, decide_False, if_true, h2,
        Bool.false_eq_true, if_false] at ha hb ⊢
      refine ⟨by simpa using ha, by simpa using hb, ?_, fun x => absurd x h3, ?_⟩
      · rw [List.chain'_cons']
        exact ⟨fun y hy hboth => hd rfl y hy hboth.2, hc⟩
      · rw [hlast' hne]; exact he
    · have c1 : strstr token ['<'] = false := by
        rw [← Bool.not_eq_true, strstr_char]; exact hlt
      simp only [c1, Bool.false_eq_true, if_false] at h
      by_cases hgt : '>' ∈ token
      · have c2 : (strstr token ['>', '>'] || strstr token ['>']) = true :=
          (out_test _).mpr hgt
        simp only [c2, if_true] at h
        split_ifs at h with h1 h2 h3 <;> try (simp at h)
        all_goals
          have hne : rest ≠ [] := fun e => h1 (hlast.mpr e)
          obtain ⟨ha, hb, hc, hd, he⟩ := ih (j + 1) _ st' (by simp at hj ⊢; omega) h
          have hr : is_redir token := Or.inr hgt
          have ho : is_out token := ⟨hgt, hlt⟩
          simp only [List.countP_cons, hlt, ho, decide_True, decide_False, if_true, h2,
            Bool.false_eq_true, if_false] at ha hb ⊢
          refine ⟨by simpa using ha, by simpa using hb, ?_, fun x => absurd x h3, ?_⟩
          · rw [List.chain'_cons']
            exact ⟨fun y hy hboth => hd rfl y hy hboth.2, hc⟩
          · rw [hlast' hne]; exact he
      · have c2 : (strstr token ['>', '>'] || strstr token ['>']) = false := by
          rw [← Bool.not_eq_true, out_test]; exact hgt
        simp only [c2, Bool.false_eq_true, if_false] at h
        have hr : ¬ is_redir token := fun x => x.elim hlt hgt
        have ho : ¬ is_out token := fun x => hgt x.1
        have key : ∀ st1 : Scan, st1.in_flag = st.in_flag → st1.out_flag = st.out_flag →
            scan i (j + 1) rest st1 = (none, st') →
            (token :: rest).countP (fun t => decide ('<' ∈ t)) +
                (if st.in_flag = 0 then 0 else 1) ≤ 1 ∧
              (token :: rest).countP (fun t => decide (is_out t)) +
                (if st.out_flag = 0 then 0 else 1) ≤ 1 ∧
              List.Chain' not_both (token :: rest) ∧
              (st.skip = 1 → ∀ t ∈ (token :: rest).head?, ¬ is_redir t) ∧
              (∀ t ∈ (token :: rest).getLast?, ¬ is_redir t) := by
          intro st1 e1 e2 hs
          obtain ⟨ha, hb, hc, _, he⟩ := ih (j + 1) st1 st' (by simp at hj ⊢; omega) hs
          rw [e1] at ha
          rw [e2] at hb
          simp only [List.countP_cons, hlt, ho, decide_False, Bool.false_eq_true, if_false]
          refine ⟨by simpa using ha, by simpa using hb, ?_, ?_, ?_⟩
          · rw [List.chain'_cons']
            exact ⟨fun y _ hboth => hr hboth.1, hc⟩
          · intro _ t ht
            simp at ht; subst ht; exact hr
          · by_cases hne : rest = []
            · subst hne; intro t ht; simp at ht; subst ht; exact hr
            · rw [hlast' hne]; exact he
        split_ifs at h
        · exact key { st with argv := st.argv ++ [j] } rfl rfl h
        · exact key { st with skip := 0 } rfl rfl h

theorem repl_step_skip (s : Shell) (c : Cycle) (bytes : List Char) (hh : s.halted = none)
    (hi : c.input = .data bytes)
    (hr : (parse (cstr bytes) (reap c.pending s).out_redir_type).ret ≠ 0) :
    repl_step s c =
      { reap c.pending s with
        out_redir_type := (parse (cstr bytes) (reap c.pending s).out_redir_type).output_type
        out := (reap c.pending s).out ++
          (parse (cstr bytes) (reap c.pending s).out_redir_type).err.map Line.stderr } := by
  unfold repl_step
  simp only [hh, Option.isSome_none, Bool.false_eq_true, if_false, hi, if_neg hr]

theorem scan_malformed (T : List Str) (st : Scan) (h0 : st.in_flag = 0) (h1 : st.out_flag = 0)
    (h : malformed T) : ∃ msg st', scan T.length 0 T st = (some msg, st') := by
  cases hs : scan T.length 0 T st with
  | mk r st' =>
    cases r with
    | some msg => exact ⟨msg, st', rfl⟩
    | none =>
      exfalso
      obtain ⟨ha, hb, hc, -, he⟩ := scan_none T.length T 0 st st' (by simp) hs
      simp only [h0, h1, if_true, Nat.add_zero] at ha hb
      rcases h with h | h | ⟨a, t, u, c, rfl, ht, hu⟩ | ⟨t, ht, hr⟩
      · omega
      · omega
      · exact hc.right_of_append.rel_head ⟨ht, hu⟩
      · exact he t ht hr

theorem malformed_ne_nil {T : List Str} (h : malformed T) : T ≠ [] := by
  rintro rfl
  rcases h with h | h | ⟨a, t, u, c, h, -, -⟩ | ⟨t, ht, -⟩
  · simp at h
  · simp at h
  · simp at h
  · simp at ht

theorem parse_malformed (line : Str) (o : Int) (h : malformed (spec_tokens line)) :
    (parse line o).ret = 1 ∧ ∃ msg, (parse line o).err = [msg] := by
  have hne := malformed_ne_nil h
  rw [← tokens_of_eq_spec_tokens] at h hne
  have hlen : (tokens_of line).length ≠ 0 := by
    rwa [Ne, List.length_eq_zero]
  obtain ⟨msg, st', hs⟩ := scan_malformed (tokens_of line)
    { in_flag := 0, out_flag := 0, skip := 0, argv := [],
      input_path := none, output_path := none, output_type := o } rfl rfl h
  unfold parse
  simp [hlen, hs]


theorem tokens_of_blank (ws : Str) (h : ∀ c ∈ ws, c = ' ' ∨ c = '\t') :
    tokens_of ws = [] ∧ tokens_of (ws ++ ['\n']) = [['\n']] := by
  induction ws with
  | nil => exact ⟨rfl, rfl⟩
  | cons c ws ih =>
    have hc : whtspc c = true := by
      rcases h c (List.mem_cons_self _ _) with rfl | rfl <;> rfl
    have := ih (fun x hx => h x (List.mem_cons_of_mem _ hx))
    rw [List.cons_append, tokens_of_cons_delim _ hc, tokens_of_cons_delim _ hc]
    exact this

theorem parse_blank (ws line : Str) (o : Int) (h : ∀ c ∈ ws, c = ' ' ∨ c = '\t')
    (hl : line = ws ∨ line = ws ++ ['\n']) :
    (parse line o).ret = 1 ∧ (parse line o).err = [] ∧ (parse line o).output_type = o := by
  obtain ⟨h1, h2⟩ := tokens_of_blank ws h
  rcases hl with rfl | rfl
  · unfold parse
    simp [h1]
  · unfold parse
    simp [h2, scan, strstr]

/-- The four ways one iteration of the loop of lines 89-159 goes on to the next
token. -/
theorem scan_cons_none {i j : Nat} {token : Str} {rest : List Str} {st st' : Scan}
    (h : scan i j (token :: rest) st = (none, st')) :
    ∃ st1, scan i (j + 1) rest st1 = (none, st') ∧
      (('<' ∈ token ∧ j ≠ i - 1 ∧ st.in_flag = 0 ∧ st.skip ≠ 1 ∧
          st1 = { st with input_path := some (j + 1), in_flag := 1, skip := 1 }) ∨
       ('<' ∉ token ∧ '>' ∈ token ∧ j ≠ i - 1 ∧ st.out_flag = 0 ∧ st.skip ≠ 1 ∧
          st1 = { st with
                  output_path := some (j + 1)
                  output_type := if ['>', '>'] <:+: token then 1 else 0
                  out_flag := 1
                  skip := 1 }) ∨
       ('<' ∉ token ∧ '>' ∉ token ∧ st.skip ≠ 1 ∧ token ≠ ['\n'] ∧
          st1 = { st with argv := st.argv ++ [j] }) ∨
       ('<' ∉ token ∧ '>' ∉ token ∧ (st.skip = 1 ∨ token = ['\n']) ∧
          st1 = { st with skip := 0 })) := by
  unfold scan at h
  by_cases hlt : '<' ∈ token
  · have c1 : strstr token ['<'] = true := (strstr_char _ _).mpr hlt
    simp only [c1, if_true] at h
    split_ifs at h with h1 h2 h3 <;> try (simp at h)
    exact ⟨_, h, Or.inl ⟨hlt, h1, h2, h3, rfl⟩⟩
  · have c1 : strstr token ['<'] = false := by
      rw [← Bool.not_eq_true, strstr_char]; exact hlt
    simp only [c1, Bool.false_eq_true, if_false] at h
    by_cases hgt : '>' ∈ token
    · have c2 : (strstr token ['>', '>'] || strstr token ['>']) = true :=
        (out_test _).mpr hgt
      simp only [c2, if_true] at h
      by_cases h1 : j = i - 1
      · simp [h1] at h
      by_cases h2 : st.out_flag = 0
      swap
      · simp [h1, h2] at h
      by_cases h3 : st.skip = 1
      · simp [h1, h2, h3] at h
      rw [if_neg h1, if_pos h2, if_neg h3] at h
      refine ⟨_, h, Or.inr (Or.inl ⟨hlt, hgt, h1, h2, h3, ?_⟩)⟩
      by_cases h4 : strstr token ['>', '>'] = true
      · simp [h4, (strstr_iff _ _).mp h4]
      · have h5 : ¬ (['>', '>'] <:+: token) := fun x => h4 ((strstr_iff _ _).mpr x)
        simp [h4, h5]
    · have c2 : (strstr token ['>', '>'] || strstr token ['>']) = false := by
        rw [← Bool.not_eq_true, out_test]; exact hgt
      simp only [c2, Bool.false_eq_true, if_false] at h
      split_ifs at h with h1
      · simp only [Bool.and_eq_true, decide_eq_true_eq] at h1
        exact ⟨_, h, Or.inr (Or.inr (Or.inl ⟨hlt, hgt, h1.1, h1.2, rfl⟩))⟩
      · simp only [Bool.and_eq_true, decide_eq_true_eq, not_and_or, not_not] at h1
        exact ⟨_, h, Or.inr (Or.inr (Or.inr ⟨hlt, hgt, h1, rfl⟩))⟩


theorem no_lt_of_countP {rest : List Str}
    (h : rest.countP (fun t => decide ('<' ∈ t)) + 1 ≤ 1) : ∀ t ∈ rest, '<' ∉ t := by
  have h0 : rest.countP (fun t => decide ('<' ∈ t)) = 0 := by omega
  rw [List.countP_eq_zero] at h0
  intro t ht
  simpa using h0 t ht

theorem no_out_of_countP {rest : List Str}
    (h : rest.countP (fun t => decide (is_out t)) + 1 ≤ 1) : ∀ t ∈ rest, ¬ is_out t := by
  have h0 : rest.countP (fun t => decide (is_out t)) = 0 := by omega
  rw [List.countP_eq_zero] at h0
  intro t ht
  simpa using h0 t ht

/-- After a scan that runs to the end, `*input_path` points to the token after
the token containing '<', and is untouched when there is no such token. -/
theorem scan_input (i : Nat) : ∀ (rest : List Str) (j : Nat) (st st' : Scan),
    j + rest.length = i → scan i j rest st = (none, st') →
      (∀ m, '<' ∈ rest.getD m [] → st'.input_path = some (j + m + 1)) ∧
      ((∀ t ∈ rest, '<' ∉ t) → st'.input_path = st.input_path) := by
  intro rest
  induction rest with
  | nil =>
    intro j st st' _ h
    simp only [scan, Prod.mk.injEq, true_and] at h
    subst h
    simp
  | cons token rest ih =>
    intro j st st' hj h
    have hj' : j + 1 + rest.length = i := by simp at hj; omega
    obtain ⟨st1, hs, hcase⟩ := scan_cons_none h
    obtain ⟨ih1, ih2⟩ := ih (j + 1) st1 st' hj' hs
    have hnone := scan_none i rest (j + 1) st1 st' hj' hs
    rcases hcase with ⟨hlt, -, -, -, rfl⟩ | ⟨hlt, -, -, -, -, rfl⟩ | ⟨hlt, -, -, -, rfl⟩ |
      ⟨hlt, -, -, rfl⟩
    · have hno := no_lt_of_countP (by simpa using hnone.1)
      refine ⟨?_, fun hall => absurd hlt (hall token (List.mem_cons_self _ _))⟩
      intro m hm
      cases m with
      | zero => simpa using ih2 hno
      | succ m =>
        exfalso
        simp only [List.getD_cons_succ] at hm
        by_cases hlen : m < rest.length
        · rw [List.getD_eq_getElem _ _ hlen] at hm
          exact hno _ (List.getElem_mem _) hm
        · rw [List.getD_eq_default _ _ (by omega)] at hm
          simp at hm
    all_goals
      refine ⟨?_, fun hall => by
        simpa using ih2 (fun t ht => hall t (List.mem_cons_of_mem _ ht))⟩
      intro m hm
      cases m with
      | zero => exact absurd hm hlt
      | succ m =>
        simp only [List.getD_cons_succ] at hm
        rw [ih1 m hm]
        congr 1
        omega

/-- After a scan that runs to the end, `*output_path` points to the token after
the output-operator token and `*output_type` tells whether that operator
contains ">>"; both are untouched when there is no such token. -/
theorem scan_output (i : Nat) : ∀ (rest : List Str) (j : Nat) (st st' : Scan),
    j + rest.length = i → scan i j rest st = (none, st') →
      (∀ m, is_out (rest.getD m []) →
        st'.output_path = some (j + m + 1) ∧
        st'.output_type = if ['>', '>'] <:+: rest.getD m [] then 1 else 0) ∧
      ((∀ t ∈ rest, ¬ is_out t) →
        st'.output_path = st.output_path ∧ st'.output_type = st.output_type) := by
  intro rest
  induction rest with
  | nil =>
    intro j st st' _ h
    simp only [scan, Prod.mk.injEq, true_and] at h
    subst h
    simp [is_out]
  | cons token rest ih =>
    intro j st st' hj h
    have hj' : j + 1 + rest.length = i := by simp at hj; omega
    obtain ⟨st1, hs, hcase⟩ := scan_cons_none h
    obtain ⟨ih1, ih2⟩ := ih (j + 1) st1 st' hj' hs
    have hnone := scan_none i rest (j + 1) st1 st' hj' hs
    have hstep : ∀ m, is_out ((token :: rest).getD (m + 1) []) →
        st'.output_path = some (j + (m + 1) + 1) ∧
        st'.output_type = if ['>', '>'] <:+: (token :: rest).getD (m + 1) [] then 1 else 0 := by
      intro m hm
      simp only [List.getD_cons_succ] at hm ⊢
      obtain ⟨e1, e2⟩ := ih1 m hm
      refine ⟨?_, e2⟩
      rw [e1]
      congr 1
      omega
    rcases hcase with ⟨hlt, -, -, -, rfl⟩ | ⟨hlt, hgt, -, -, -, rfl⟩ | ⟨hlt, hgt, -, -, rfl⟩ |
      ⟨hlt, hgt, -, rfl⟩
    · refine ⟨?_, fun hall => by
        simpa using ih2 (fun t ht => hall t (List.mem_cons_of_mem _ ht))⟩
      intro m hm
      cases m with
      | zero => exact absurd hlt hm.2
      | succ m => exact hstep m hm
    · have hno := no_out_of_countP (by simpa using hnone.2.1)
      refine ⟨?_, fun hall => absurd ⟨hgt, hlt⟩ (hall token (List.mem_cons_self _ _))⟩
      intro m hm
      cases m with
      | zero => simpa using ih2 hno
      | succ m =>
        exfalso
        simp only [List.getD_cons_succ] at hm
        by_cases hlen : m < rest.length
        · rw [List.getD_eq_getElem _ _ hlen] at hm
          exact hno _ (List.getElem_mem _) hm
        · rw [List.getD_eq_default _ _ (by omega)] at hm
          simp [is_out] at hm
    all_goals
      refine ⟨?_, fun hall => by
        simpa using ih2 (fun t ht => hall t (List.mem_cons_of_mem _ ht))⟩
      intro m hm
      cases m with
      | zero => exact absurd hm.1 hgt
      | succ m => exact hstep m hm

theorem drop_cons_facts : ∀ {T : List Str} {j : Nat} {t : Str} {rest : List Str},
    T.drop j = t :: rest → T.getD j [] = t ∧ T.drop (j + 1) = rest := by
  intro T
  induction T with
  | nil => intro j t rest h; simp at h
  | cons a T ih =>
    intro j t rest h
    cases j with
    | zero =>
      simp only [List.drop_zero, List.cons.injEq] at h
      simp [h.1, h.2]
    | succ j =>
      simp only [List.drop_succ_cons] at h
      simpa using ih h

/-- After a scan that runs to the end, `argv` has gained the indices of the
kept tokens, in order. -/
theorem scan_argv (i : Nat) (T : List Str) : ∀ (rest : List Str) (j : Nat) (st st' : Scan),
    T.drop j = rest → (st.skip = 1 ↔ 0 < j ∧ is_redir (T.getD (j - 1) [])) →
    scan i j rest st = (none, st') →
      st'.argv = st.argv ++ (List.range' j rest.length).filter (fun k => decide (kept T k)) := by
  intro rest
  induction rest with
  | nil =>
    intro j st st' _ _ h
    simp only [scan, Prod.mk.injEq, true_and] at h
    subst h
    simp
  | cons token rest ih =>
    intro j st st' hT hskip h
    obtain ⟨htok, hdrop⟩ := drop_cons_facts hT
    obtain ⟨st1, hs, hcase⟩ := scan_cons_none h
    have hrange : List.range' j (token :: rest).length = j :: List.range' (j + 1) rest.length := by
      simp [List.range'_succ]
    rw [hrange, List.filter_cons]
    have hyes : is_redir token → ∀ n : Nat,
        (1 = 1 ↔ 0 < j + 1 ∧ is_redir (T.getD (j + 1 - 1) [])) := by
      intro hr _
      rw [Nat.add_sub_cancel, htok]
      exact ⟨fun _ => ⟨Nat.succ_pos _, hr⟩, fun _ => rfl⟩
    have hno : ¬ is_redir token → ∀ n : Nat, n ≠ 1 →
        (n = 1 ↔ 0 < j + 1 ∧ is_redir (T.getD (j + 1 - 1) [])) := by
      intro hr n hn
      rw [Nat.add_sub_cancel, htok]
      exact ⟨fun x => absurd x hn, fun x => absurd x.2 hr⟩
    rcases hcase with ⟨hlt, -, -, -, rfl⟩ | ⟨hlt, hgt, -, -, -, rfl⟩ | ⟨hlt, hgt, h1, h2, rfl⟩ |
      ⟨hlt, hgt, h1, rfl⟩
    · have hk : ¬ kept T j := fun x => x.1 (by rw [htok]; exact Or.inl hlt)
      rw [ih (j + 1) _ st' hdrop (hyes (Or.inl hlt) 0) hs]
      simp [hk]
    · have hk : ¬ kept T j := fun x => x.1 (by rw [htok]; exact Or.inr hgt)
      rw [ih (j + 1) _ st' hdrop (hyes (Or.inr hgt) 0) hs]
      simp [hk]
    · have hk : kept T j := by
        refine ⟨?_, fun x => h1 (hskip.mpr x), ?_⟩
        · rw [htok]; exact fun x => x.elim hlt hgt
        · rw [htok]; exact h2
      rw [ih (j + 1) { st with argv := st.argv ++ [j] } st' hdrop
        (hno (fun x => x.elim hlt hgt) _ h1) hs]
      simp [hk]
    · have hk : ¬ kept T j := by
        rintro ⟨-, x2, x3⟩
        rcases h1 with h1 | h1
        · exact x2 (hskip.mp h1)
        · exact x3 (by rw [htok]; exact h1)
      rw [ih (j + 1) _ st' hdrop (hno (fun x => x.elim hlt hgt) 0 (by decide)) hs]
      simp [hk]

theorem tokens_of_join (s : Str) :
    (tokens_of s).flatten = s.filter (fun c => !whtspc c) := by
  generalize h : s.length = n
  induction n using Nat.strong_induction_on generalizing s with
  | _ n ih =>
    cases s with
    | nil => simp [tokens_of_nil]
    | cons c s =>
      by_cases hc : whtspc c = true
      · rw [tokens_of_cons_delim s hc, ih s.length (by simp [← h]) s rfl]
        simp [hc]
      · have hc' : whtspc c = false := by simpa using hc
        have hlen : ((s.dropWhile (fun x => !whtspc x)).drop 1).length < n := by
          have := (List.dropWhile_sublist (fun x => !whtspc x) (l := s)).length_le
          simp only [List.length_drop, ← h, List.length_cons]
          omega
        rw [tokens_of_cons_char s hc', List.flatten_cons, ih _ hlen _ rfl]
        simp only [List.filter_cons, hc', Bool.not_false, if_true, List.cons_append,
          List.cons.injEq, true_and]
        conv_rhs => rw [← List.takeWhile_append_dropWhile (fun x => !whtspc x) s]
        rw [List.filter_append]
        congr 1
        · symm
          rw [List.filter_eq_self]
          intro a ha
          exact List.mem_takeWhile_imp (p := fun x => !whtspc x) ha
        · cases hd : s.dropWhile (fun x => !whtspc x) with
          | nil => simp
          | cons d r =>
            have := List.head_dropWhile_not (fun x => !whtspc x) s (by simp [hd])
            simp only [hd, List.head_cons] at this
            simp [this]

theorem spec_tokens_ne_nil {s t : Str} (h : t ∈ spec_tokens s) : t ≠ [] := by
  unfold spec_tokens at h
  simpa using (List.mem_filter.mp h).2

/-- The tokens of a line whose only line terminator is its last byte: the
terminator ends the last token and occurs nowhere else. -/
theorem spec_tokens_line (body : Str) (hb : '\n' ∉ body) :
    ∃ T0 w, spec_tokens (body ++ ['\n']) = T0 ++ [w ++ ['\n']] ∧
      (∀ t ∈ T0, '\n' ∉ t) ∧ '\n' ∉ w := by
  have hj := tokens_of_join (body ++ ['\n'])
  rw [tokens_of_eq_spec_tokens] at hj
  have hnw : whtspc '\n' = false := by decide
  simp only [List.filter_append, List.filter_cons, hnw, Bool.not_false, if_true,
    List.filter_nil] at hj
  have hne : spec_tokens (body ++ ['\n']) ≠ [] := by
    intro e
    rw [e] at hj
    simp at hj
  obtain ⟨T0, tl, hT⟩ : ∃ T0 tl, spec_tokens (body ++ ['\n']) = T0 ++ [tl] :=
    ⟨_, _, (List.dropLast_append_getLast hne).symm⟩
  have hlast : tl ≠ [] := spec_tokens_ne_nil (s := body ++ ['\n']) (by rw [hT]; simp)
  obtain ⟨w, c, hW⟩ : ∃ w c, tl = w ++ [c] :=
    ⟨_, _, (List.dropLast_append_getLast hlast).symm⟩
  rw [hT, hW] at hj
  simp only [List.flatten_append, List.flatten_cons, List.flatten_nil, List.append_nil,
    ← List.append_assoc] at hj
  obtain ⟨h1, h2⟩ := List.append_inj' hj rfl
  have hc : c = '\n' := by simpa using h2
  have hF : ∀ x ∈ List.filter (fun c => !whtspc c) body, x ≠ '\n' := by
    intro x hx e
    exact hb (e ▸ (List.mem_filter.mp hx).1)
  refine ⟨T0, w, ?_, ?_, ?_⟩
  · rw [hT, hW, hc]
  · intro t ht hn
    refine hF '\n' ?_ rfl
    rw [← h1]
    exact List.mem_append_left _ (List.mem_flatten.mpr ⟨t, ht, hn⟩)
  · intro hn
    refine hF '\n' ?_ rfl
    rw [← h1]
    exact List.mem_append_right _ hn

theorem trim_newline_free {t : Str} (h : '\n' ∉ t) : trim_newline t = t := by
  unfold trim_newline
  rw [List.takeWhile_eq_self_iff]
  intro x hx
  simp only [bne_iff_ne, ne_eq]
  rintro rfl
  exact h hx

theorem strip_nl_free {t : Str} (h : '\n' ∉ t) : strip_nl t = t := by
  unfold strip_nl
  rw [if_neg]
  intro e
  exact h (List.mem_of_mem_getLast? e)

theorem trim_newline_line {w : Str} (h : '\n' ∉ w) : trim_newline (w ++ ['\n']) = w := by
  unfold trim_newline
  rw [List.takeWhile_append]
  have : List.takeWhile (fun c => c != '\n') w = w := trim_newline_free h
  simp [this]

theorem strip_nl_line (w : Str) : strip_nl (w ++ ['\n']) = w := by
  simp [strip_nl]

theorem edit_getD (f : Str → Str) (n k : Nat) (l : List Str) :
    (edit f n l).getD k [] = if k = n ∧ n < l.length then f (l.getD k []) else l.getD k [] := by
  unfold edit
  simp only [List.getD_eq_getElem?_getD, List.getElem?_set]
  by_cases h1 : n = k
  · subst h1
    by_cases h2 : n < l.length
    · simp [h2]
    · simp [h2, List.getElem?_eq_none (Nat.le_of_not_lt h2)]
  · have h1' : ¬ k = n := fun e => h1 e.symm
    simp [h1, h1']

/-- The strings the token pointers point to when `parse` returns 0 on a line
whose only terminator is its last byte. -/
theorem final_str (T0 : List Str) (w : Str) (h0 : ∀ t ∈ T0, '\n' ∉ t) (hw : '\n' ∉ w)
    (a k : Nat) :
    (edit trim_newline a
        (edit trim_newline ((T0 ++ [w ++ ['\n']]).length - 1) (T0 ++ [w ++ ['\n']]))).getD k [] =
      strip_nl ((T0 ++ [w ++ ['\n']]).getD k []) := by
  have hlen : (T0 ++ [w ++ ['\n']]).length - 1 = T0.length := by simp
  have hget : ∀ k, k ≠ T0.length → '\n' ∉ (T0 ++ [w ++ ['\n']]).getD k [] := by
    intro k hk
    by_cases h1 : k < T0.length
    · rw [List.getD_eq_getElem _ _ (by simp; omega), List.getElem_append_left h1]
      exact h0 _ (List.getElem_mem _)
    · rw [List.getD_eq_default _ _ (by simp; omega)]
      simp
  have hlastD : (T0 ++ [w ++ ['\n']]).getD T0.length [] = w ++ ['\n'] := by
    rw [List.getD_eq_getElem _ _ (by simp)]
    simp
  rw [edit_getD, edit_getD, hlen]
  by_cases hk : k = T0.length
  · subst hk
    simp only [hlastD, true_and, List.length_append, List.length_singleton,
      Nat.lt_succ_self, if_true, trim_newline_line hw, strip_nl_line, trim_newline_free hw]
    split <;> rfl
  · have := hget k hk
    simp only [hk, false_and, if_false, strip_nl_free this, trim_newline_free this]
    split <;> rfl

theorem map_strip_last (f : Nat → Str) (i : Nat) (l : List Nat)
    (hfree : ∀ k, k ≠ i - 1 → strip_nl (f k) = f k)
    (hs : l.Pairwise (· < ·)) (hn : ∀ k ∈ l, k < i) :
    l.map (fun k => strip_nl (f k)) = strip_last (l.map f) := by
  rcases List.eq_nil_or_concat l with rfl | ⟨init, a, rfl⟩
  · rfl
  · rw [List.concat_eq_append] at hs hn ⊢
    have hinit : ∀ k ∈ init, strip_nl (f k) = f k := by
      intro k hk
      have h1 : k < a := (List.pairwise_append.mp hs).2.2 k hk a (by simp)
      have h2 : a < i := hn a (by simp)
      exact hfree k (by omega)
    unfold strip_last
    simp only [List.map_append, List.map_cons, List.map_nil]
    rw [List.getLast?_concat, List.dropLast_concat]
    simp only [List.append_cancel_right_eq]
    exact List.map_congr_left hinit

/-- What `parse` returning 0 says about its scan. -/
theorem parse_proceed {line : Str} {o : Int} (hp : (parse line o).ret = 0) :
    ∃ st', scan (tokens_of line).length 0 (tokens_of line)
        { in_flag := 0, out_flag := 0, skip := 0, argv := [],
          input_path := none, output_path := none, output_type := o } = (none, st') ∧
      st'.argv ≠ [] ∧
      parse line o =
        { ret := 0,
          tokens := edit trim_newline (st'.argv.getLastD 0)
            (edit trim_newline ((tokens_of line).length - 1) (tokens_of line)),
          argv := st'.argv, input_path := st'.input_path, output_path := st'.output_path,
          output_type := st'.output_type, err := [] } := by
  unfold parse at hp ⊢
  simp only at hp ⊢
  by_cases h1 : (tokens_of line).length = 0
  · rw [if_pos h1] at hp; simp at hp
  · rw [if_neg h1] at hp ⊢
    cases hs : scan (tokens_of line).length 0 (tokens_of line)
        { in_flag := 0, out_flag := 0, skip := 0, argv := [],
          input_path := none, output_path := none, output_type := o } with
    | mk r st' =>
      rw [hs] at hp
      cases r with
      | some msg => simp at hp
      | none =>
        simp only at hp ⊢
        by_cases h2 : (tokens_of line).getD 0 [] = ['\n']
        · rw [if_pos h2] at hp; simp at hp
        · rw [if_neg h2] at hp ⊢
          by_cases h3 : st'.argv = []
          · rw [if_pos h3] at hp; simp at hp
          · exact ⟨st', rfl, h3, by rw [if_neg h3]⟩


theorem getD_line_free (T0 : List Str) (w : Str) (h0 : ∀ t ∈ T0, '\n' ∉ t) (k : Nat)
    (hk : k ≠ (T0 ++ [w ++ ['\n']]).length - 1) : '\n' ∉ (T0 ++ [w ++ ['\n']]).getD k [] := by
  have hlen : (T0 ++ [w ++ ['\n']]).length - 1 = T0.length := by simp
  rw [hlen] at hk
  by_cases h1 : k < T0.length
  · rw [List.getD_eq_getElem _ _ (by simp; omega), List.getElem_append_left h1]
    exact h0 _ (List.getElem_mem _)
  · rw [List.getD_eq_default _ _ (by simp; omega)]
    simp

/-- C1. On a line whose only line terminator is its last byte and for which
`parse` returns 0: `argv` is, in order, the space/tab-delimited tokens that are
not a redirection operator, do not follow one and are not a bare terminator,
the terminator stripped from the last entry; the input path is the token after
the token containing '<', the output path the token after the output-operator
token (terminator stripped), the output type 1 if that operator contains ">>"
and 0 otherwise; without an operator the path stays NULL and the output type
keeps the value it had. -/
theorem parse_proceed_spec (body line : Str) (o : Int) (hl : line = body ++ ['\n'])
    (hb : '\n' ∉ body) (hp : (parse line o).ret = 0) :
    (parse line o).args = spec_argv (spec_tokens line) ∧
    (∀ k, '<' ∈ (spec_tokens line).getD k [] →
      (parse line o).input = some (strip_nl ((spec_tokens line).getD (k + 1) []))) ∧
    (∀ k, is_out ((spec_tokens line).getD k []) →
      (parse line o).output = some (strip_nl ((spec_tokens line).getD (k + 1) [])) ∧
      (parse line o).output_type =
        if ['>', '>'] <:+: (spec_tokens line).getD k [] then 1 else 0) ∧
    ((∀ t ∈ spec_tokens line, '<' ∉ t) → (parse line o).input = none) ∧
    ((∀ t ∈ spec_tokens line, ¬ is_out t) →
      (parse line o).output = none ∧ (parse line o).output_type = o) := by
  obtain ⟨st', hs, hne, hparse⟩ := parse_proceed hp
  rw [tokens_of_eq_spec_tokens] at hs hparse
  subst hl
  obtain ⟨T0, w, hT, h0, hw⟩ := spec_tokens_line body hb
  generalize spec_tokens (body ++ ['\n']) = T at hs hparse hT ⊢
  have hstr : ∀ k, (parse (body ++ ['\n']) o).str k = strip_nl (T.getD k []) := by
    intro k
    rw [hparse]
    simp only [Parsed.str]
    rw [hT]
    exact final_str T0 w h0 hw _ k
  have hin := scan_input T.length T 0 _ st' (by simp) hs
  have hout := scan_output T.length T 0 _ st' (by simp) hs
  have hargv := scan_argv T.length T T 0 _ st' (by simp) (by simp) hs
  simp only [List.nil_append] at hargv
  have hI : (parse (body ++ ['\n']) o).input_path = st'.input_path := by rw [hparse]
  have hO : (parse (body ++ ['\n']) o).output_path = st'.output_path := by rw [hparse]
  have hOt : (parse (body ++ ['\n']) o).output_type = st'.output_type := by rw [hparse]
  have hA : (parse (body ++ ['\n']) o).argv = st'.argv := by rw [hparse]
  refine ⟨?_, ?_, ?_, ?_, ?_⟩
  · unfold Parsed.args spec_argv
    rw [hA, hargv, List.range_eq_range']
    have hfun : (parse (body ++ ['\n']) o).str = fun k => strip_nl (T.getD k []) :=
      funext hstr
    rw [hfun]
    refine map_strip_last (fun k => T.getD k []) T.length _ ?_ ?_ ?_
    · intro k hk
      rw [hT] at hk ⊢
      exact strip_nl_free (getD_line_free T0 w h0 k hk)
    · exact (List.pairwise_lt_range' 0 T.length).sublist (List.filter_sublist _)
    · intro k hk
      have := (List.mem_filter.mp hk).1
      simp only [List.mem_range'_1] at this
      omega
  · intro k hk
    unfold Parsed.input
    rw [hI, hin.1 k hk, Option.map_some', hstr]
    simp
  · intro k hk
    obtain ⟨e1, e2⟩ := hout.1 k hk
    unfold Parsed.output
    rw [hO, hOt, e1, e2, Option.map_some', hstr]
    simp
  · intro hall
    unfold Parsed.input
    rw [hI, hin.2 hall]
    rfl
  · intro hall
    unfold Parsed.output
    obtain ⟨e1, e2⟩ := hout.2 hall
    rw [hO, hOt, e1, e2]
    exact ⟨rfl, rfl⟩

theorem parse_proceed_spec_witness :
    ('\n' ∉ "echo hi < in.txt > out.txt".toList ∧
      (parse "echo hi < in.txt > out.txt\n".toList 1).ret = 0) ∧
    (parse "echo hi < in.txt > out.txt\n".toList 1).args = ["echo".toList, "hi".toList] ∧
    (parse "echo hi < in.txt > out.txt\n".toList 1).input = some "in.txt".toList ∧
    (parse "echo hi < in.txt > out.txt\n".toList 1).output = some "out.txt".toList ∧
    (parse "echo hi < in.txt > out.txt\n".toList 1).output_type = 0 ∧
    (parse "cmd >> out\n".toList 0).output = some "out".toList ∧
    (parse "cmd >> out\n".toList 0).output_type = 1 := by
  have h1 := parse_proceed_spec "echo hi < in.txt > out.txt".toList
    "echo hi < in.txt > out.txt\n".toList 1 rfl (by decide) (by decide)
  have h2 := parse_proceed_spec "cmd >> out".toList "cmd >> out\n".toList 0 rfl
    (by decide) (by decide)
  refine ⟨⟨by decide, by decide⟩, h1.1.trans (by decide), (h1.2.1 2 (by decide)).trans (by decide),
    ((h1.2.2.1 4 (by decide)).1).trans (by decide), ((h1.2.2.1 4 (by decide)).2).trans (by decide),
    ((h2.2.2.1 1 (by decide)).1).trans (by decide), ((h2.2.2.1 1 (by decide)).2).trans (by decide)⟩

/-- C3. A line made only of spaces and tabs, with or without one line
terminator after them, makes `parse` return 1 without printing anything, and
the iteration of the shell that read it makes no call beyond those of the
reaper and leaves the job table, the job-id counter and the output as the
reaper left them. -/
theorem parse_skips_blank_line (ws line : Str) (h : ∀ c ∈ ws, c = ' ' ∨ c = '\t')
    (hl : line = ws ∨ line = ws ++ ['\n']) :
    (∀ o : Int, (parse line o).ret = 1 ∧ (parse line o).err = []) ∧
    (∀ (s : Shell) (c : Cycle) (bytes : List Char), s.halted = none →
      c.input = .data bytes → cstr bytes = line →
        repl_step s c = reap c.pending s) := by
  refine ⟨fun o => ⟨(parse_blank ws line o h hl).1, (parse_blank ws line o h hl).2.1⟩, ?_⟩
  intro s c bytes hh hi hb
  subst hb
  obtain ⟨h1, h2, h3⟩ := parse_blank ws _ (reap c.pending s).out_redir_type h hl
  rw [repl_step_skip s c bytes hh hi (by rw [h1]; decide), h2, h3]
  simp

theorem parse_skips_blank_line_witness :
    (∀ c ∈ " \t ".toList, c = ' ' ∨ c = '\t') ∧
    ((∀ o : Int, (parse " \t \n".toList o).ret = 1 ∧ (parse " \t \n".toList o).err = []) ∧
     (∀ (s : Shell) (c : Cycle) (bytes : List Char), s.halted = none →
       c.input = .data bytes → cstr bytes = " \t \n".toList →
         repl_step s c = reap c.pending s)) :=
  ⟨by decide, parse_skips_blank_line " \t ".toList " \t \n".toList (by decide) (Or.inr rfl)⟩

theorem remove_update (l : job_list_t) (id : Int) (st : process_state_t) :
    remove_job_jid (update_job_jid l id st) id = remove_job_jid l id := by
  unfold remove_job_jid update_job_jid
  induction l with
  | nil => rfl
  | cons j l ih =>
    simp only [ne_eq, decide_not] at ih ⊢
    by_cases h : j.jid = id
    · simp [h, ih]
    · simp [h, ih]

theorem update_update (l : job_list_t) (id : Int) (a b : process_state_t) :
    update_job_jid (update_job_jid l id a) id b = update_job_jid l id b := by
  unfold update_job_jid
  induction l with
  | nil => rfl
  | cons j l ih =>
    by_cases h : j.jid = id
    · simp [h, ih]
    · simp [h, ih]

theorem others_update (l : job_list_t) (id : Int) (st : process_state_t) :
    others (update_job_jid l id st) id = others l id :=
  remove_update l id st

theorem others_remove (l : job_list_t) (id : Int) :
    others (remove_job_jid l id) id = others l id := by
  unfold others remove_job_jid
  simp

theorem get_job_pid_unknown {l : job_list_t} {id : Int} (h : ∀ j ∈ l, j.jid ≠ id) :
    get_job_pid l id = -1 := by
  unfold get_job_pid
  have : l.find? (fun j => decide (j.jid = id)) = none := by
    rw [List.find?_eq_none]
    intro j hj
    simpa using h j hj
  rw [this]

theorem get_job_pid_known {l : job_list_t} {id : Int} (h : known l id) :
    0 ≤ get_job_pid l id := by
  obtain ⟨j, hj, hp⟩ := h
  unfold get_job_pid
  rw [hj]
  exact hp

@[simp] theorem print_job_list (s : Shell) (l : Line) : (s.print l).job_list = s.job_list := rfl
@[simp] theorem print_job_count (s : Shell) (l : Line) : (s.print l).job_count = s.job_count := rfl
@[simp] theorem print_calls (s : Shell) (l : Line) : (s.print l).calls = s.calls := rfl
@[simp] theorem print_tty (s : Shell) (l : Line) : (s.print l).tty = s.tty := rfl
@[simp] theorem print_pgrp (s : Shell) (l : Line) : (s.print l).pgrp = s.pgrp := rfl
@[simp] theorem print_out (s : Shell) (l : Line) : (s.print l).out = s.out ++ [l] := rfl
@[simp] theorem call_job_list (s : Shell) (c : Call) : (s.call c).job_list = s.job_list := rfl
@[simp] theorem call_job_count (s : Shell) (c : Call) : (s.call c).job_count = s.job_count := rfl
@[simp] theorem call_calls (s : Shell) (c : Call) : (s.call c).calls = s.calls ++ [c] := rfl
@[simp] theorem call_tty (s : Shell) (c : Call) : (s.call c).tty = s.tty := rfl
@[simp] theorem call_pgrp (s : Shell) (c : Call) : (s.call c).pgrp = s.pgrp := rfl
@[simp] theorem call_out (s : Shell) (c : Call) : (s.call c).out = s.out := rfl
@[simp] theorem stderr_job_list (s : Shell) (m : String) :
    (print_stderr m s).job_list = s.job_list := rfl
@[simp] theorem stderr_job_count (s : Shell) (m : String) :
    (print_stderr m s).job_count = s.job_count := rfl
@[simp] theorem stderr_calls (s : Shell) (m : String) : (print_stderr m s).calls = s.calls := rfl
@[simp] theorem stderr_tty (s : Shell) (m : String) : (print_stderr m s).tty = s.tty := rfl
@[simp] theorem stderr_pgrp (s : Shell) (m : String) : (print_stderr m s).pgrp = s.pgrp := rfl
@[simp] theorem tcsetpgrp_job_list (r p : Int) (s : Shell) :
    (tcsetpgrp r p s).job_list = s.job_list := by
  unfold tcsetpgrp; split_ifs <;> rfl
@[simp] theorem tcsetpgrp_job_count (r p : Int) (s : Shell) :
    (tcsetpgrp r p s).job_count = s.job_count := by
  unfold tcsetpgrp; split_ifs <;> rfl
@[simp] theorem tcsetpgrp_calls (r p : Int) (s : Shell) :
    (tcsetpgrp r p s).calls = s.calls ++ [.tcsetpgrp p] := by
  unfold tcsetpgrp; split_ifs <;> rfl
@[simp] theorem tcsetpgrp_pgrp (r p : Int) (s : Shell) : (tcsetpgrp r p s).pgrp = s.pgrp := by
  unfold tcsetpgrp; split_ifs <;> rfl
@[simp] theorem remove_job_list (s : Shell) (id : Int) :
    (s.remove_job_jid id).job_list = remove_job_jid s.job_list id := rfl
@[simp] theorem remove_job_count (s : Shell) (id : Int) :
    (s.remove_job_jid id).job_count = s.job_count := rfl
@[simp] theorem remove_calls (s : Shell) (id : Int) :
    (s.remove_job_jid id).calls = s.calls ++ [.remove_job_jid id] := rfl
@[simp] theorem remove_tty (s : Shell) (id : Int) : (s.remove_job_jid id).tty = s.tty := rfl
@[simp] theorem remove_pgrp (s : Shell) (id : Int) : (s.remove_job_jid id).pgrp = s.pgrp := rfl
@[simp] theorem update_job_list (s : Shell) (id : Int) (st : process_state_t) :
    (s.update_job_jid id st).job_list = update_job_jid s.job_list id st := rfl
@[simp] theorem update_job_count (s : Shell) (id : Int) (st : process_state_t) :
    (s.update_job_jid id st).job_count = s.job_count := rfl
@[simp] theorem update_calls (s : Shell) (id : Int) (st : process_state_t) :
    (s.update_job_jid id st).calls = s.calls ++ [.update_job_jid id st] := rfl
@[simp] theorem update_tty (s : Shell) (id : Int) (st : process_state_t) :
    (s.update_job_jid id st).tty = s.tty := rfl
@[simp] theorem update_pgrp (s : Shell) (id : Int) (st : process_state_t) :
    (s.update_job_jid id st).pgrp = s.pgrp := rfl

/-- The job table after `fg` with an argument. -/
theorem execute_fg_job_list (e : Sys) (arg : Str) (rest : List Str) (s : Shell) :
    (execute_fg e ("fg".toList :: arg :: rest) s).job_list =
      if arg.head? ≠ some '%' then s.job_list
      else if get_job_pid s.job_list (atoi (arg.drop 1)) < 0 then s.job_list
      else if e.tcsetpgrp_job < 0 then s.job_list
      else if e.kill < 0 then s.job_list
      else if e.waitpid < 0 then update_job_jid s.job_list (atoi (arg.drop 1)) RUNNING
      else match e.status with
        | .exited _ => remove_job_jid s.job_list (atoi (arg.drop 1))
        | .signaled _ => remove_job_jid s.job_list (atoi (arg.drop 1))
        | .stopped _ => update_job_jid s.job_list (atoi (arg.drop 1)) STOPPED
        | .continued => update_job_jid s.job_list (atoi (arg.drop 1)) RUNNING := by
  unfold execute_fg
  simp only [List.get?_cons_succ, List.get?_cons_zero]
  by_cases h1 : arg.head? ≠ some '%'
  · rw [if_pos h1, if_pos h1]; rfl
  rw [if_neg h1, if_neg h1]
  by_cases h2 : get_job_pid s.job_list (atoi (arg.drop 1)) < 0
  · rw [if_pos h2, if_pos h2]; rfl
  rw [if_neg h2, if_neg h2]
  by_cases h3 : e.tcsetpgrp_job < 0
  · rw [if_pos h3, if_pos h3]; simp
  rw [if_neg h3, if_neg h3]
  by_cases h4 : e.kill < 0
  · rw [if_pos h4, if_pos h4]; simp
  rw [if_neg h4, if_neg h4]
  by_cases h5 : e.waitpid < 0
  · rw [if_pos h5, if_pos h5]; simp
  rw [if_neg h5, if_neg h5]
  unfold reclaim_terminal fg_status
  cases e.status <;>
    simp [WIFEXITED, WIFSIGNALED, WIFSTOPPED, apply_ite Shell.job_list, remove_update,
      update_update]

theorem execute_is_fg (e : Sys) (args : List Str) (i o : Option Str) (t : Int) (s : Shell) :
    execute e ("fg".toList :: args) i o t s = execute_fg e ("fg".toList :: args) s := by
  simp [execute, trim_path]

theorem execute_is_bg (e : Sys) (args : List Str) (i o : Option Str) (t : Int) (s : Shell) :
    execute e ("bg".toList :: args) i o t s = execute_bg e ("bg".toList :: args) s := by
  simp [execute, trim_path]

theorem execute_fg_unknown (e : Sys) (arg : Str) (rest : List Str) (s : Shell)
    (h : arg.head? ≠ some '%' ∨ ∀ j ∈ s.job_list, j.jid ≠ atoi (arg.drop 1)) :
    ∃ msg, execute_fg e ("fg".toList :: arg :: rest) s = print_stderr msg s := by
  unfold execute_fg
  simp only [List.get?_cons_succ, List.get?_cons_zero]
  by_cases h1 : arg.head? ≠ some '%'
  · rw [if_pos h1]; exact ⟨_, rfl⟩
  rw [if_neg h1]
  have h2 : get_job_pid s.job_list (atoi (arg.drop 1)) < 0 := by
    rw [get_job_pid_unknown (h.resolve_left h1)]; decide
  rw [if_pos h2]; exact ⟨_, rfl⟩

theorem execute_bg_unknown (e : Sys) (arg : Str) (rest : List Str) (s : Shell)
    (h : arg.head? ≠ some '%' ∨ ∀ j ∈ s.job_list, j.jid ≠ atoi (arg.drop 1)) :
    ∃ msg, execute_bg e ("bg".toList :: arg :: rest) s = print_stderr msg s := by
  unfold execute_bg
  simp only [List.get?_cons_succ, List.get?_cons_zero]
  by_cases h1 : arg.head? ≠ some '%'
  · rw [if_pos h1]; exact ⟨_, rfl⟩
  rw [if_neg h1]
  have h2 : get_job_pid s.job_list (atoi (arg.drop 1)) < 0 := by
    rw [get_job_pid_unknown (h.resolve_left h1)]; decide
  rw [if_pos h2]; exact ⟨_, rfl⟩

/-- The shell after `bg` with an argument. -/
theorem execute_bg_eq (e : Sys) (arg : Str) (rest : List Str) (s : Shell) :
    execute_bg e ("bg".toList :: arg :: rest) s =
      if arg.head? ≠ some '%' then print_stderr "bg: syntax error\n" s
      else if get_job_pid s.job_list (atoi (arg.drop 1)) < 0 then
        print_stderr "ERROR - job not found\n" s
      else if e.kill < 0 then
        print_stderr "ERROR - error sending signal\n"
          (s.call (.kill_cont (get_job_pid s.job_list (atoi (arg.drop 1)))))
      else
        (s.call (.kill_cont (get_job_pid s.job_list (atoi (arg.drop 1))))).update_job_jid
          (atoi (arg.drop 1)) RUNNING := by
  unfold execute_bg
  simp only [List.get?_cons_succ, List.get?_cons_zero]

@[simp] theorem remove_out (s : Shell) (id : Int) : (s.remove_job_jid id).out = s.out := rfl
@[simp] theorem update_out (s : Shell) (id : Int) (st : process_state_t) :
    (s.update_job_jid id st).out = s.out := rfl
@[simp] theorem stderr_out (s : Shell) (m : String) :
    (print_stderr m s).out = s.out ++ [.stderr m] := rfl
@[simp] theorem tcsetpgrp_out (r p : Int) (s : Shell) : (tcsetpgrp r p s).out = s.out := by
  unfold tcsetpgrp; split_ifs <;> rfl

theorem remove_absent {l : job_list_t} {id : Int} (h : ∀ j ∈ l, j.jid ≠ id) :
    remove_job_jid l id = l := by
  unfold remove_job_jid
  rw [List.filter_eq_self]
  intro j hj
  simpa using h j hj

theorem update_absent {l : job_list_t} {id : Int} (st : process_state_t)
    (h : ∀ j ∈ l, j.jid ≠ id) : update_job_jid l id st = l := by
  unfold update_job_jid
  conv_rhs => rw [← List.map_id l]
  apply List.map_congr_left
  intro j hj
  simp [h j hj]

theorem jid_unique {l : job_list_t} (h : (l.map Job.jid).Nodup) {j x : Job} (hj : j ∈ l)
    (hx : x ∈ l) (e : x.jid = j.jid) : x = j :=
  List.inj_on_of_nodup_map h hx hj e

theorem remove_that_job {l : job_list_t} (h : (l.map Job.jid).Nodup) {j : Job} (hj : j ∈ l) :
    remove_job_jid l j.jid = l.filter (fun x => x ≠ j) := by
  unfold remove_job_jid
  apply List.filter_congr
  intro x hx
  by_cases e : x.jid = j.jid
  · have := jid_unique h hj hx e
    simp [e, this]
  · have : x ≠ j := fun h' => e (by rw [h'])
    simp [e, this]

theorem update_that_job {l : job_list_t} (h : (l.map Job.jid).Nodup) {j : Job} (hj : j ∈ l)
    (st : process_state_t) :
    update_job_jid l j.jid st = l.map (fun x => if x = j then { x with state := st } else x) := by
  unfold update_job_jid
  apply List.map_congr_left
  intro x hx
  by_cases e : x.jid = j.jid
  · have := jid_unique h hj hx e
    simp [e, this]
  · have : x ≠ j := fun h' => e (by rw [h'])
    simp [e, this]

theorem table_ok_remove {l : job_list_t} (h : table_ok l) (id : Int) :
    table_ok (remove_job_jid l id) := by
  unfold remove_job_jid
  refine ⟨fun j hj => h.1 j (List.mem_filter.mp hj).1, ?_⟩
  exact h.2.sublist ((List.filter_sublist _).map _)

theorem table_ok_update {l : job_list_t} (h : table_ok l) (id : Int) (st : process_state_t) :
    table_ok (update_job_jid l id st) := by
  have hmap : (update_job_jid l id st).map Job.jid = l.map Job.jid := by
    unfold update_job_jid
    rw [List.map_map]
    apply List.map_congr_left
    intro j _
    simp only [Function.comp]
    split_ifs <;> rfl
  refine ⟨?_, by rw [hmap]; exact h.2⟩
  intro j hj
  have : j.jid ∈ (update_job_jid l id st).map Job.jid := List.mem_map_of_mem _ hj
  rw [hmap] at this
  obtain ⟨j', hj', e⟩ := List.mem_map.mp this
  rw [← e]
  exact h.1 j' hj'

/-- One turn of the reaper's loop does to the table what the claim says, and
prints the lookup error exactly when the pid has no job. -/
theorem reap_body_spec (pid : Int) (status : Status) (s : Shell) (h : table_ok s.job_list) :
    (reap_body pid status s).job_list = reap_change s.job_list (pid, status) ∧
    (reap_body pid status s).out.count lookup_error =
      s.out.count lookup_error +
        (if (s.job_list.find? (fun j => j.pid = pid)).isNone then 1 else 0) ∧
    (reap_body pid status s).calls.count (.waitpid (-1)) = s.calls.count (.waitpid (-1)) := by
  unfold reap_body reap_change get_job_jid
  cases hf : s.job_list.find? (fun j => decide (j.pid = pid)) with
  | none =>
    have hno : ∀ j ∈ s.job_list, j.jid ≠ -1 := by
      intro j hj e
      have := h.1 j hj
      omega
    cases status <;>
      simp [WIFEXITED, WIFSIGNALED, WIFSTOPPED, WIFCONTINUED, remove_absent hno,
        update_absent _ hno, lookup_error, print_stderr, List.count_append, List.count_cons,
        List.count_nil]
  | some j =>
    have hj : j ∈ s.job_list := List.mem_of_find?_eq_some hf
    have hpos : ¬ j.jid < 0 := not_lt.mpr (le_of_lt (h.1 j hj))
    cases status <;>
      simp [WIFEXITED, WIFSIGNALED, WIFSTOPPED, WIFCONTINUED, hpos, lookup_error,
        remove_that_job h.2 hj, update_that_job h.2 hj, List.count_append, List.count_cons,
        List.count_nil]

theorem table_ok_reap_change {l : job_list_t} (h : table_ok l) (c : Int × Status) :
    table_ok (reap_change l c) := by
  unfold reap_change
  cases hf : l.find? (fun j => decide (j.pid = c.1)) with
  | none => exact h
  | some j =>
    have hj : j ∈ l := List.mem_of_find?_eq_some hf
    cases c.2 with
    | exited _ => simp only; rw [← remove_that_job h.2 hj]; exact table_ok_remove h _
    | signaled _ => simp only; rw [← remove_that_job h.2 hj]; exact table_ok_remove h _
    | stopped _ => simp only; rw [← update_that_job h.2 hj]; exact table_ok_update h _ _
    | continued => simp only; rw [← update_that_job h.2 hj]; exact table_ok_update h _ _

@[simp] theorem issued_append (a b : List Call) : issued (a ++ b) = issued a ++ issued b := by
  simp [issued]

@[simp] theorem issued_nil : issued [] = [] := rfl

theorem Quiet.refl (s : Shell) : Quiet s s := ⟨rfl, rfl, List.Sublist.refl _⟩

theorem Quiet.trans {a b c : Shell} (h1 : Quiet a b) (h2 : Quiet b c) : Quiet a c :=
  ⟨h2.1.trans h1.1, h2.2.1.trans h1.2.1, h2.2.2.trans h1.2.2⟩

theorem jids_remove (l : job_list_t) (id : Int) :
    ((remove_job_jid l id).map Job.jid).Sublist (l.map Job.jid) :=
  (List.filter_sublist _).map _

theorem jids_update (l : job_list_t) (id : Int) (st : process_state_t) :
    (update_job_jid l id st).map Job.jid = l.map Job.jid := by
  unfold update_job_jid
  rw [List.map_map]
  apply List.map_congr_left
  intro j _
  simp only [Function.comp]
  split_ifs <;> rfl

theorem quiet_print {s a : Shell} (l : Line) (h : Quiet s a) : Quiet s (a.print l) := h

theorem quiet_stderr {s a : Shell} (m : String) (h : Quiet s a) : Quiet s (print_stderr m a) := h

theorem quiet_tcsetpgrp {s a : Shell} (r p : Int) (h : Quiet s a) :
    Quiet s (tcsetpgrp r p a) := by
  refine h.trans ⟨by simp, by simp [issued, issued_by], ?_⟩
  unfold jids; simp

theorem quiet_call {s a : Shell} (c : Call) (hc : issued_by c = none) (h : Quiet s a) :
    Quiet s (a.call c) := by
  refine h.trans ⟨rfl, ?_, List.Sublist.refl _⟩
  simp [issued, hc]

theorem quiet_remove {s a : Shell} (id : Int) (h : Quiet s a) :
    Quiet s (a.remove_job_jid id) := by
  refine h.trans ⟨rfl, by simp [issued, issued_by], ?_⟩
  exact jids_remove _ _

theorem quiet_update {s a : Shell} (id : Int) (st : process_state_t) (h : Quiet s a) :
    Quiet s (a.update_job_jid id st) := by
  refine h.trans ⟨rfl, by simp [issued, issued_by], ?_⟩
  unfold jids
  rw [update_job_list, jids_update]

theorem quiet_ite {s a b : Shell} (c : Prop) [Decidable c] (ha : Quiet s a) (hb : Quiet s b) :
    Quiet s (if c then a else b) := by
  split_ifs <;> assumption

theorem quiet_with_pgrp {s a : Shell} (p : Int) (h : Quiet s a) :
    Quiet s { a with pgrp := p } := h

theorem quiet_with_halted {s a : Shell} (p : Option Halt) (h : Quiet s a) :
    Quiet s { a with halted := p } := h

theorem quiet_reap_body (pid : Int) (status : Status) (s : Shell) :
    Quiet s (reap_body pid status s) := by
  unfold reap_body
  simp only
  with_reducible repeat' first
    | exact Quiet.refl _
    | assumption
    | apply quiet_ite
    | apply quiet_print
    | apply quiet_stderr
    | apply quiet_update
    | apply quiet_remove

theorem quiet_reap (pending : List (Int × Status)) (s : Shell) : Quiet s (reap pending s) := by
  induction pending generalizing s with
  | nil => exact quiet_call _ rfl (Quiet.refl s)
  | cons c more ih =>
    obtain ⟨pid, status⟩ := c
    simp only [reap]
    have h1 : Quiet s (s.call (.waitpid (-1))) := quiet_call _ rfl (Quiet.refl s)
    refine quiet_ite _ (quiet_ite _ (quiet_print _ h1) ?_) h1
    exact (h1.trans (quiet_reap_body _ _ _)).trans (ih _)

theorem quiet_fg_status {s a : Shell} (job_id pid : Int) (status : Status) (h : Quiet s a) :
    Quiet s (fg_status job_id pid status a) := by
  unfold fg_status
  simp only
  with_reducible repeat' first
    | exact Quiet.refl _
    | assumption
    | apply quiet_ite
    | apply quiet_print
    | apply quiet_stderr
    | apply quiet_update
    | apply quiet_remove

theorem quiet_reclaim {s a : Shell} (e : Sys) (h : Quiet s a) :
    Quiet s (reclaim_terminal e a) := by
  unfold reclaim_terminal
  simp only
  with_reducible repeat' first
    | exact Quiet.refl _
    | assumption
    | apply quiet_ite
    | apply quiet_print
    | apply quiet_tcsetpgrp

theorem quiet_fg (e : Sys) (argv : List Str) (s : Shell) : Quiet s (execute_fg e argv s) := by
  unfold execute_fg
  split
  · exact Quiet.refl _
  · simp only
    with_reducible repeat' first
      | exact Quiet.refl _
      | assumption
      | apply quiet_ite
      | apply quiet_print
      | apply quiet_stderr
      | apply quiet_update
      | apply quiet_tcsetpgrp
      | apply quiet_call
      | apply quiet_reclaim
      | apply quiet_fg_status
    all_goals rfl

theorem quiet_bg (e : Sys) (argv : List Str) (s : Shell) : Quiet s (execute_bg e argv s) := by
  unfold execute_bg
  split
  · exact Quiet.refl _
  · simp only
    with_reducible repeat' first
      | exact Quiet.refl _
      | assumption
      | apply quiet_ite
      | apply quiet_print
      | apply quiet_stderr
      | apply quiet_update
      | apply quiet_call
    all_goals rfl

theorem quiet_child (e : Sys) (path : Str) (argv : List Str) (is_bg : Bool)
    (i o : Option Str) (t : Int) {s a : Shell} (h : Quiet s a) :
    Quiet s (execute_child e path argv is_bg i o t a) := by
  unfold execute_child
  simp only
  cases i <;> cases o <;> simp only [Option.isSome_none, Option.isSome_some, Bool.false_and,
    Bool.true_and, Bool.false_eq_true, if_false]
  all_goals
    with_reducible repeat' first
      | exact Quiet.refl _
      | assumption
      | apply quiet_ite
      | apply quiet_print
      | apply quiet_stderr
      | apply quiet_tcsetpgrp
      | apply quiet_call
      | apply quiet_with_pgrp
      | apply quiet_with_halted
    all_goals rfl

theorem Quiet.grow {a b c : Shell} (h1 : Quiet a b) (h2 : Grow b c) : Grow a c := by
  refine ⟨by rw [h2.1, h1.1], by rw [h2.2.1, h1.2.1, h1.1], ?_⟩
  rw [← h1.1]
  exact h2.2.2.trans (h1.2.2.append (List.Sublist.refl _))

theorem Grow.quiet {a b c : Shell} (h1 : Grow a b) (h2 : Quiet b c) : Grow a c :=
  ⟨by rw [h2.1, h1.1], by rw [h2.2.1, h1.2.1], h2.2.2.trans h1.2.2⟩

theorem add_job_fail (a : Shell) (jid pid : Int) (st : process_state_t) (cmd : Str) :
    a.add_job false jid pid st cmd = (-1, a.call (.add_job jid pid st cmd (-1))) := rfl

theorem add_job_done (a : Shell) (jid pid : Int) (st : process_state_t) (cmd : Str) :
    a.add_job true jid pid st cmd =
      (0, { a with job_list := a.job_list ++ [{ jid := jid, pid := pid, state := st,
                                                 command := cmd }],
                   calls := a.calls ++ [.add_job jid pid st cmd 0] }) := rfl

theorem quiet_child_takes {s a : Shell} (e : Sys) (p : Int) (h : Quiet s a) :
    Quiet s (child_takes_terminal e p a) := by
  unfold child_takes_terminal
  exact quiet_ite _ h h

theorem step_background (e : Sys) (path : Str) (p : Int) (s : Shell) :
    Quiet s (launch_background e path p s) ∨ Grow s (launch_background e path p s) := by
  unfold launch_background
  cases e.add_job
  · left
    simp only [add_job_fail]
    rw [if_pos (by decide)]
    exact quiet_stderr _ (quiet_call _ rfl (Quiet.refl s))
  · right
    simp only [add_job_done]
    rw [if_neg (by decide)]
    refine ⟨?_, ?_, ?_⟩
    · simp [Shell.print]
    · simp [Shell.print, issued, issued_by]
    · simp [Shell.print, jids]

theorem step_foreground (e : Sys) (path : Str) (p : Int) (s : Shell) :
    Quiet s (launch_foreground e path p s) ∨ Grow s (launch_foreground e path p s) := by
  have hq : Quiet s (s.call (.waitpid p)) := quiet_call _ rfl (Quiet.refl s)
  unfold launch_foreground
  simp only
  by_cases h1 : e.waitpid < 0
  · rw [if_pos h1]; exact Or.inl (quiet_print _ hq)
  rw [if_neg h1]
  cases e.status with
  | exited c =>
    simp only [WIFSIGNALED, WIFSTOPPED, Bool.false_eq_true, if_false]
    exact Or.inl (quiet_reclaim _ hq)
  | signaled c =>
    simp only [WIFSIGNALED, WIFSTOPPED, Bool.false_eq_true, if_false, if_true]
    exact Or.inl (quiet_reclaim _ (quiet_print _ hq))
  | continued =>
    simp only [WIFSIGNALED, WIFSTOPPED, Bool.false_eq_true, if_false]
    exact Or.inl (quiet_reclaim _ hq)
  | stopped c =>
    simp only [WIFSIGNALED, WIFSTOPPED, Bool.false_eq_true, if_false, if_true]
    cases e.add_job
    · left
      simp only [add_job_fail]
      rw [if_pos (by decide)]
      exact quiet_stderr _ (quiet_call _ rfl (quiet_print _ hq))
    · right
      simp only [add_job_done]
      rw [if_neg (by decide)]
      refine Grow.quiet ⟨?_, ?_, ?_⟩ (quiet_reclaim _ (Quiet.refl _))
      · simp [Shell.print, Shell.call]
      · simp [Shell.print, Shell.call, issued, issued_by]
      · simp [Shell.print, Shell.call, jids]

/-- A launch inserts at most one job, under the id held by the counter. -/
theorem step_launch (e : Sys) (path : Str) (argv : List Str) (i o : Option Str) (t : Int)
    (s : Shell) :
    Quiet s (execute_launch e path argv i o t s) ∨ Grow s (execute_launch e path argv i o t s) := by
  have hq : Quiet s ((s.call (.open_probe path)).call .fork) :=
    quiet_call _ rfl (quiet_call _ rfl (Quiet.refl s))
  unfold execute_launch
  simp only
  by_cases h1 : e.open_probe < 0
  · rw [if_pos h1]; exact Or.inl (quiet_print _ (quiet_call _ rfl (Quiet.refl s)))
  rw [if_neg h1]
  by_cases h2 : e.fork = 0
  · rw [if_pos h2]; exact Or.inl (quiet_child _ _ _ _ _ _ _ hq)
  rw [if_neg h2]
  by_cases h3 : decide (argv.getLast? = some ['&']) = true
  · rw [if_pos h3]
    rcases step_background e path e.fork ((s.call (.open_probe path)).call .fork) with h | h
    · exact Or.inl (hq.trans h)
    · exact Or.inr (hq.grow h)
  · rw [if_neg h3]
    have hq' := quiet_child_takes e e.fork hq
    rcases step_foreground e path e.fork
      (child_takes_terminal e e.fork ((s.call (.open_probe path)).call .fork)) with h | h
    · exact Or.inl (hq'.trans h)
    · exact Or.inr (hq'.grow h)

/-- One `execute` inserts at most one job, under the id held by the counter. -/
theorem step_execute (e : Sys) (argv : List Str) (i o : Option Str) (t : Int) (s : Shell) :
    Quiet s (execute e argv i o t s) ∨ Grow s (execute e argv i o t s) := by
  unfold execute
  simp only
  by_cases c1 : argv.headD [] = ['c', 'd']
  · rw [if_pos c1]; left
    split
    with_reducible repeat' first
      | exact Quiet.refl _
      | apply quiet_ite
      | apply quiet_print
      | apply quiet_stderr
      | apply quiet_call
    all_goals rfl
  rw [if_neg c1]
  by_cases c2 : argv.headD [] = ['l', 'n']
  · rw [if_pos c2]; left
    split
    with_reducible repeat' first
      | exact Quiet.refl _
      | apply quiet_ite
      | apply quiet_print
      | apply quiet_stderr
      | apply quiet_call
    all_goals rfl
  rw [if_neg c2]
  by_cases c3 : argv.headD [] = ['r', 'm']
  · rw [if_pos c3]; left
    split
    with_reducible repeat' first
      | exact Quiet.refl _
      | apply quiet_ite
      | apply quiet_print
      | apply quiet_stderr
      | apply quiet_call
    all_goals rfl
  rw [if_neg c3]
  by_cases c4 : argv.headD [] = ['e', 'x', 'i', 't']
  · rw [if_pos c4]
    exact Or.inl (quiet_with_halted _ (quiet_call _ rfl (Quiet.refl s)))
  rw [if_neg c4]
  by_cases c5 : argv.headD [] = ['f', 'g']
  · rw [if_pos c5]; exact Or.inl (quiet_fg _ _ _)
  rw [if_neg c5]
  by_cases c6 : argv.headD [] = ['b', 'g']
  · rw [if_pos c6]; exact Or.inl (quiet_bg _ _ _)
  rw [if_neg c6]
  by_cases c7 : argv.headD [] = ['j', 'o', 'b', 's']
  · rw [if_pos c7]; exact Or.inl (Quiet.refl _)
  rw [if_neg c7]
  exact step_launch _ _ _ _ _ _ _

/-- One iteration of the loop of `main` inserts at most one job, under the id
held by the counter. -/
theorem step_repl (s : Shell) (c : Cycle) :
    Quiet s (repl_step s c) ∨ Grow s (repl_step s c) := by
  unfold repl_step
  by_cases hh : s.halted.isSome = true
  · rw [if_pos hh]; exact Or.inl (Quiet.refl s)
  rw [if_neg hh]
  have hr := quiet_reap c.pending s
  cases c.input with
  | eof => exact Or.inl (quiet_with_halted _ (quiet_call _ rfl hr))
  | error => exact Or.inl (quiet_with_halted _ (quiet_call _ rfl (quiet_stderr _ hr)))
  | data bytes =>
    simp only
    have hq : Quiet s
        { reap c.pending s with
          out_redir_type := (parse (cstr bytes) (reap c.pending s).out_redir_type).output_type,
          out := (reap c.pending s).out ++
            (parse (cstr bytes) (reap c.pending s).out_redir_type).err.map Line.stderr } := hr
    split_ifs
    · rcases step_execute c.sys _ _ _ _ _ with h | h
      · exact Or.inl (hq.trans h)
      · exact Or.inr (hq.grow h)
    · exact Or.inl hq

theorem inv_init (pgrp : Int) : SessionInv (Shell.init pgrp) :=
  ⟨0, rfl, rfl, by simp [jids, Shell.init], by simp [jids, Shell.init]⟩

theorem inv_quiet {s s' : Shell} (h : SessionInv s) (q : Quiet s s') : SessionInv s' := by
  obtain ⟨n, h1, h2, h3, h4⟩ := h
  refine ⟨n, by rw [q.2.1, h1], by rw [q.1, h2], ?_, h4.sublist q.2.2⟩
  intro x hx
  rw [q.1]
  exact h3 x (q.2.2.subset hx)

theorem to_int_eq {x : Int} (h1 : -2147483648 ≤ x) (h2 : x ≤ 2147483647) : to_int x = x := by
  unfold to_int
  omega

theorem inv_length {s : Shell} {n : Nat}
    (h : issued s.calls = (List.range' 1 n).map Int.ofNat) : (issued s.calls).length = n := by
  rw [h]
  simp

theorem inv_grow {s s' : Shell} (h : SessionInv s) (g : Grow s s')
    (hb : (issued s'.calls).length < 2147483647) : SessionInv s' := by
  obtain ⟨n, h1, h2, h3, h4⟩ := h
  have hn : n + 1 < 2147483647 := by
    have := inv_length h1
    rw [g.2.1, List.length_append, this] at hb
    simpa using hb
  have hjc : s'.job_count = s.job_count + 1 := by
    rw [g.1, to_int_eq (by omega) (by omega)]
  have hall : ∀ x ∈ jids s ++ [s.job_count], 0 < x ∧ x < s.job_count + 1 := by
    intro x hx
    rcases List.mem_append.mp hx with hx | hx
    · have := h3 x hx
      omega
    · simp only [List.mem_singleton] at hx
      omega
  have hpw : (jids s ++ [s.job_count]).Pairwise (· < ·) := by
    rw [List.pairwise_append]
    refine ⟨h4, List.pairwise_singleton _ _, ?_⟩
    intro a ha b hb
    simp only [List.mem_singleton] at hb
    rw [hb]
    exact (h3 a ha).2
  refine ⟨n + 1, ?_, by rw [hjc, h2]; push_cast; ring, ?_, hpw.sublist g.2.2⟩
  · rw [g.2.1, h1, h2, List.range'_concat]
    simp
    omega
  · intro x hx
    rw [hjc]
    exact hall x (g.2.2.subset hx)

theorem run_snoc (s : Shell) (cs : List Cycle) (c : Cycle) :
    run s (cs ++ [c]) = repl_step (run s cs) c := by
  simp [run, List.foldl_append]

/-- An iteration never takes an id back: the number of inserted ids does not
decrease. -/
theorem issued_length_step (s : Shell) (c : Cycle) :
    (issued s.calls).length ≤ (issued (repl_step s c).calls).length := by
  rcases step_repl s c with q | g
  · rw [q.2.1]
  · rw [g.2.1, List.length_append]
    omega

theorem inv_step {s : Shell} (h : SessionInv s) (c : Cycle)
    (hb : (issued (repl_step s c).calls).length < 2147483647) :
    SessionInv (repl_step s c) := by
  rcases step_repl s c with q | g
  · exact inv_quiet h q
  · exact inv_grow h g hb

/-- The invariant holds throughout a session that inserts fewer than
2^31 - 1 jobs, the sessions in which `job_count++` stays in the range of
`int`. -/
theorem inv_run {s : Shell} (h : SessionInv s) (cs : List Cycle)
    (hb : (issued (run s cs).calls).length < 2147483647) : SessionInv (run s cs) := by
  induction cs using List.reverseRecOn with
  | nil => exact h
  | append_singleton cs c ih =>
    rw [run_snoc] at hb ⊢
    have := issued_length_step (run s cs) c
    exact inv_step (ih (by omega)) c hb

/-- In every state reached by a session that has inserted fewer than 2^31 - 1
jobs, the job ids in the table are positive and pairwise distinct. -/
theorem reachable_table_ok (pgrp : Int) (cs : List Cycle)
    (hb : (issued (run (Shell.init pgrp) cs).calls).length < 2147483647) :
    table_ok (run (Shell.init pgrp) cs).job_list := by
  obtain ⟨n, -, -, h3, h4⟩ := inv_run (inv_init pgrp) cs hb
  refine ⟨?_, ?_⟩
  · intro j hj
    exact (h3 j.jid (List.mem_map_of_mem _ hj)).1
  · exact h4.imp (fun h => ne_of_lt h)

/-- A buffer of `n` bytes holds at most `(n + 1) / 2` tokens. -/
theorem tokens_of_length_le (s : Str) : (tokens_of s).length ≤ (s.length + 1) / 2 := by
  generalize h : s.length = n
  induction n using Nat.strong_induction_on generalizing s with
  | _ n ih =>
    cases s with
    | nil => simp [tokens_of_nil]
    | cons c s =>
      simp only [List.length_cons] at h
      by_cases hc : whtspc c = true
      · rw [tokens_of_cons_delim s hc]
        have := ih s.length (by omega) s rfl
        omega
      · have hc' : whtspc c = false := by simpa using hc
        rw [tokens_of_cons_char s hc', List.length_cons]
        have hd := (List.dropWhile_sublist (fun x => !whtspc x) (l := s)).length_le
        have := ih ((s.dropWhile (fun x => !whtspc x)).drop 1).length
          (by simp only [List.length_drop]; omega) _ rfl
        simp only [List.length_drop] at this
        omega

/-! ## Job control -/

/-- C4. In a session that inserts fewer than 2^31 - 1 jobs (so that the `int`
counter does not overflow), whatever the lines read, the answers of the system
calls and the status changes reaped: the job ids inserted into the job table
are 1, 2, ..., n in this order and the counter is n + 1; so they are strictly
increasing and start at 1; an iteration never decreases the counter, and every
id it inserts is larger than every id inserted before, so no id is issued
twice, whatever has been removed from the table. -/
theorem job_ids_strictly_increasing (pgrp : Int) (cs : List Cycle)
    (hb : (issued (run (Shell.init pgrp) cs).calls).length < 2147483647) :
    (∃ n : Nat, issued (run (Shell.init pgrp) cs).calls = (List.range' 1 n).map Int.ofNat ∧
      (run (Shell.init pgrp) cs).job_count = n + 1) ∧
    (issued (run (Shell.init pgrp) cs).calls).Pairwise (· < ·) ∧
    (∀ x ∈ (issued (run (Shell.init pgrp) cs).calls).head?, x = 1) ∧
    (∀ c : Cycle, (issued (run (Shell.init pgrp) (cs ++ [c])).calls).length < 2147483647 →
      (run (Shell.init pgrp) cs).job_count ≤ (run (Shell.init pgrp) (cs ++ [c])).job_count ∧
      ∃ new, issued (run (Shell.init pgrp) (cs ++ [c])).calls =
          issued (run (Shell.init pgrp) cs).calls ++ new ∧
        ∀ x ∈ new, ∀ y ∈ issued (run (Shell.init pgrp) cs).calls, y < x) := by
  obtain ⟨n, h1, h2, -, -⟩ := inv_run (inv_init pgrp) cs hb
  have hlt : ∀ y ∈ issued (run (Shell.init pgrp) cs).calls,
      y < (run (Shell.init pgrp) cs).job_count := by
    intro y hy
    rw [h1] at hy
    obtain ⟨k, hk, rfl⟩ := List.mem_map.mp hy
    rw [h2]
    simp only [List.mem_range'_1] at hk
    simp only [Int.ofNat_eq_coe]
    omega
  refine ⟨⟨n, h1, h2⟩, ?_, ?_, ?_⟩
  · rw [h1]
    refine List.Pairwise.map _ ?_ (List.pairwise_lt_range' 1 n)
    intro a b hab
    exact Int.ofNat_lt.mpr hab
  · rw [h1]
    cases n with
    | zero => simp
    | succ n => simp [List.range'_succ]
  · intro c hc
    rw [run_snoc] at hc ⊢
    rcases step_repl (run (Shell.init pgrp) cs) c with q | g
    · exact ⟨le_of_eq q.1.symm, [], by rw [q.2.1]; simp, by simp⟩
    · have hn : n + 1 < 2147483647 := by
        have := inv_length h1
        rw [g.2.1, List.length_append, this] at hc
        simpa using hc
      refine ⟨?_, [(run (Shell.init pgrp) cs).job_count], g.2.1, ?_⟩
      · rw [g.1, to_int_eq (by omega) (by omega)]
        omega
      · intro x hx y hy
        simp only [List.mem_singleton] at hx
        rw [hx]
        exact hlt y hy

theorem job_ids_strictly_increasing_witness :
    (issued (run (Shell.init 100) [cycle_bg, cycle_reap_bg]).calls).length < 2147483647 ∧
    issued (run (Shell.init 100) [cycle_bg, cycle_reap_bg]).calls = [1, 2] ∧
    (run (Shell.init 100) [cycle_bg, cycle_reap_bg]).job_list =
      [{ jid := 2, pid := 601, state := RUNNING, command := "/bin/sleep".toList }] ∧
    (run (Shell.init 100) [cycle_bg, cycle_reap_bg]).job_count = 3 ∧
    (issued (run (Shell.init 100) [cycle_bg, cycle_reap_bg]).calls).Pairwise (· < ·) :=
  ⟨by decide, by decide, by decide, by decide,
    (job_ids_strictly_increasing 100 [cycle_bg, cycle_reap_bg] (by decide)).2.1⟩

/-- C6 fails on the code: after the terminal has been handed to the job's
process group (500 for `fg %1`, 600 for a foreground launch), `execute` returns
with the terminal still owned by that group, not by the shell's group 100,
when `kill` fails or `waitpid` fails in `fg`, and when `waitpid` fails or
`add_job` fails in a foreground launch. -/
theorem terminal_not_reclaimed :
    shell_one_job.pgrp = 100 ∧ shell_one_job.tty = 100 ∧
    (execute { sys_fg with kill := -1 } ["fg".toList, "%1".toList] none none 0
      shell_one_job).tty = 500 ∧
    (execute { sys_fg with waitpid := -1 } ["fg".toList, "%1".toList] none none 0
      shell_one_job).tty = 500 ∧
    (execute { sys_ok with waitpid := -1 } ["/bin/ls".toList] none none 0
      (Shell.init 100)).tty = 600 ∧
    (execute { sys_ok with status := .stopped 20, add_job := false } ["/bin/ls".toList]
      none none 0 (Shell.init 100)).tty = 600 ∧
    (execute sys_fg ["fg".toList, "%1".toList] none none 0 shell_one_job).tty = 100 ∧
    (execute sys_ok ["/bin/ls".toList] none none 0 (Shell.init 100)).tty = 100 := by
  decide

/-- C9 fails on the code: when `fork` returns -1 for the background launch
`/bin/sleep 5 &`, nothing is reported; a job with id 1 and process id -1 is
inserted, the line `[1] (-1)` is printed and `job_count` goes from 1 to 2.
For the foreground launch `/bin/ls` the parent calls `waitpid(-1, ...)`; when
that reports the stop of process 500, a job with id 2 is inserted for it and
`job_count` goes from 2 to 3, again with no error printed. -/
theorem fork_failure_not_detected :
    execute { sys_ok with fork := -1 } ["/bin/sleep".toList, "5".toList, "&".toList] none none 0
        (Shell.init 100) =
      { Shell.init 100 with
        job_list := [{ jid := 1, pid := -1, state := RUNNING, command := "/bin/sleep".toList }]
        job_count := 2
        out := [Line.launched 1 (-1)]
        calls := [Call.open_probe "/bin/sleep".toList, Call.fork,
                  Call.add_job 1 (-1) RUNNING "/bin/sleep".toList 0] } ∧
    execute { sys_ok with fork := -1, waitpid := 500, status := .stopped 20 } ["/bin/ls".toList]
        none none 0 shell_one_job =
      { shell_one_job with
        job_list := [{ jid := 1, pid := 500, state := STOPPED, command := "/bin/cat".toList },
                     { jid := 2, pid := 500, state := STOPPED, command := "/bin/ls".toList }]
        job_count := 3
        out := [Line.suspended 2 500 20]
        calls := [Call.open_probe "/bin/ls".toList, Call.fork, Call.waitpid (-1),
                  Call.add_job 2 500 STOPPED "/bin/ls".toList 0, Call.tcsetpgrp 100] } := by
  decide

set_option maxRecDepth 100000 in
/-- C10 fails on the code: on a line of 1023 bytes made of 511 times "a " and
the line terminator, `parse` finds 512 tokens, so the NULL of line 80 is
written to `tokens[512]`, past the end of the 512-entry array; on the 1023
bytes "a a ... a" it also collects 512 arguments and the NULL of line 164 is
written to `argv[512]`. -/
theorem sentinel_written_past_the_end :
    long_line.length = 1023 ∧ tokens_sentinel long_line = 512 ∧
    long_args.length = 1023 ∧ tokens_sentinel long_args = 512 ∧
    (parse long_args 0).ret = 0 ∧ argv_sentinel long_args = 512 := by
  refine ⟨by decide, by decide, by decide, by decide, by decide, by decide⟩

/-- C11 fails on the code: on `cmd < ` plus the line terminator the operator
is not the last token, the bare terminator is; `parse` takes that token as the
file name, returns 0, and the trimming of lines 180-182 leaves the input path
empty.  The same happens to the output path for `>` and `>>`.  The shell then
forks, and the child of `/bin/cat < ` opens the empty path for reading. -/
theorem empty_redirection_path_accepted :
    (spec_tokens "cmd < \n".toList = ["cmd".toList, "<".toList, "\n".toList] ∧
      (parse "cmd < \n".toList 0).ret = 0 ∧ (parse "cmd < \n".toList 0).err = [] ∧
      (parse "cmd < \n".toList 0).args = ["cmd".toList] ∧
      (parse "cmd < \n".toList 0).input = some []) ∧
    ((parse "cmd > \n".toList 0).ret = 0 ∧ (parse "cmd > \n".toList 0).output = some []) ∧
    ((parse "cmd >> \n".toList 0).ret = 0 ∧ (parse "cmd >> \n".toList 0).output = some [] ∧
      (parse "cmd >> \n".toList 0).output_type = 1) ∧
    (repl_step (Shell.init 100) cycle_cat_child).calls =
      [Call.waitpid (-1), Call.open_probe "/bin/cat".toList, Call.fork, Call.setpgid,
       Call.tcsetpgrp 600, Call.open_in [], Call.execv "/bin/cat".toList ["cat".toList]] ∧
    (parse "cmd <\n".toList 0).ret = 1 := by
  decide

end Sh
